import Mathlib

/-!
# Particle Swarm Optimization (`pso1.cpp`): a shallow embedding

The program minimises a two-dimensional objective with a swarm of particles.
The embedding follows `main` line by line:

* `double` is an arbitrary linearly ordered field `α` (instantiated with `ℚ`
  for evaluation); `gbest_fit`, which starts at `+infinity`, lives in
  `WithTop α`;
* where the rounding of `double` operations decides a property, the operation
  is also given in binary64 arithmetic: `roundDouble` rounds a rational to the
  nearest binary64 value (ties to even) and `random_range_double` is
  `random_range` with every operation rounded;
* the global generator `rng` is an explicit draw sequence `ρ : ℕ → α`
  together with the number of draws consumed so far (`State.drawn`);
* the compile-time constants are the fields of `Params`;
* the objective (`ackley` in the source) is a parameter `f : α → α → α`;
* console output is not modelled.
-/

set_option autoImplicit false

namespace PSO

/-- The global constants of `pso1.cpp` (lines 18-29). -/
structure Params (α : Type) where
  X_MIN : α
  X_MAX : α
  POP_SIZE : Nat
  MAX_ITER : Nat
  W : α
  C1 : α
  C2 : α

/-- Line 20: `const double VEL_MAX = (X_MAX - X_MIN);`. -/
def Params.VEL_MAX {α : Type} [LinearOrderedField α] (P : Params α) : α :=
  P.X_MAX - P.X_MIN

/-- The constants as written in the source. -/
def sourceParams : Params ℚ where
  X_MIN := -5
  X_MAX := 5
  POP_SIZE := 10
  MAX_ITER := 200
  W := 7 / 10
  C1 := 3 / 2
  C2 := 3 / 2

/-- Lines 39-42: `random_range`, with the value `u` returned by `unif01(rng)`
passed explicitly. -/
def random_range {α : Type} [LinearOrderedField α] (u min_val max_val : α) : α :=
  min_val + u * (max_val - min_val)

/-- Lines 45-50: `struct Particle`; `array<double, 2>` is a pair. -/
structure Particle (α : Type) where
  pos : α × α
  vel : α × α
  pbest : α × α
  pbest_fit : α
deriving DecidableEq

/-- The mutable data of `main`: the swarm, the global best and the number of
draws taken from the generator so far. -/
structure State (α : Type) where
  swarm : List (Particle α)
  gbest_pos : α × α
  gbest_fit : WithTop α
  drawn : Nat
deriving DecidableEq

section Defs

variable {α : Type} [LinearOrderedField α]

/-- Lines 65-67: the value-initialised swarm, `gbest_pos = {0.0, 0.0}` and
`gbest_fit = +infinity`, before any draw. -/
def start (P : Params α) : State α where
  swarm := List.replicate P.POP_SIZE
    { pos := (0, 0), vel := (0, 0), pbest := (0, 0), pbest_fit := 0 }
  gbest_pos := (0, 0)
  gbest_fit := ⊤
  drawn := 0

/-- Lines 76-83: the particle built in one pass of the initialisation loop
when `c` draws have been consumed: position (x then y), then velocity
(vx then vy), then `pbest = pos` and `pbest_fit = f(pos)`. -/
def freshParticle (f : α → α → α) (ρ : ℕ → α) (P : Params α) (c : ℕ) : Particle α :=
  let x := random_range (ρ c) P.X_MIN P.X_MAX
  let y := random_range (ρ (c + 1)) P.X_MIN P.X_MAX
  let vx := random_range (ρ (c + 2)) (-P.VEL_MAX) P.VEL_MAX
  let vy := random_range (ρ (c + 3)) (-P.VEL_MAX) P.VEL_MAX
  { pos := (x, y), vel := (vx, vy), pbest := (x, y), pbest_fit := f x y }

/-- Lines 75-89: the body of the initialisation loop for index `i`. -/
def initParticle (f : α → α → α) (ρ : ℕ → α) (P : Params α)
    (s : State α) (i : ℕ) : State α :=
  let p := freshParticle f ρ P s.drawn
  if (p.pbest_fit : WithTop α) < s.gbest_fit then
    { swarm := s.swarm.set i p
      gbest_pos := p.pbest
      gbest_fit := (p.pbest_fit : WithTop α)
      drawn := s.drawn + 4 }
  else
    { swarm := s.swarm.set i p
      gbest_pos := s.gbest_pos
      gbest_fit := s.gbest_fit
      drawn := s.drawn + 4 }

/-- Lines 75-94 stopped after the first `k` particles. -/
def initUpTo (f : α → α → α) (ρ : ℕ → α) (P : Params α) (k : ℕ) : State α :=
  (List.range k).foldl (initParticle f ρ P) (start P)

/-- Lines 65-94: the state after the initialisation loop. -/
def initSwarm (f : α → α → α) (ρ : ℕ → α) (P : Params α) : State α :=
  initUpTo f ρ P P.POP_SIZE

/-- Lines 121-122: the two clamping tests, in the order of the source. -/
def clampPos (P : Params α) (x : α) : α :=
  let x1 := if x < P.X_MIN then P.X_MIN else x
  if x1 > P.X_MAX then P.X_MAX else x1

/-- Lines 113-115: the new velocity of one dimension. -/
def newVel (P : Params α) (r1 r2 pos vel pbest gbest : α) : α :=
  P.W * vel + P.C1 * r1 * (pbest - pos) + P.C2 * r2 * (gbest - pos)

/-- Lines 110-123: velocity and position update of both dimensions; the
personal best is not touched here. -/
def move (P : Params α) (r1 r2 : α) (g : α × α) (p : Particle α) : Particle α :=
  let vx := newVel P r1 r2 p.pos.1 p.vel.1 p.pbest.1 g.1
  let x := clampPos P (p.pos.1 + vx)
  let vy := newVel P r1 r2 p.pos.2 p.vel.2 p.pbest.2 g.2
  let y := clampPos P (p.pos.2 + vy)
  { pos := (x, y), vel := (vx, vy), pbest := p.pbest, pbest_fit := p.pbest_fit }

/-- Lines 103-138: the body of the particle loop for the particle at index
`k`: two draws, the move, and the nested personal-best / global-best tests. -/
def updateParticle (f : α → α → α) (ρ : ℕ → α) (P : Params α)
    (s : State α) (k : ℕ) : State α :=
  match s.swarm[k]? with
  | none => s
  | some p =>
    let r1 := ρ s.drawn
    let r2 := ρ (s.drawn + 1)
    let q := move P r1 r2 s.gbest_pos p
    let current_fit := f q.pos.1 q.pos.2
    if current_fit < q.pbest_fit then
      let q1 : Particle α :=
        { pos := q.pos, vel := q.vel, pbest := q.pos, pbest_fit := current_fit }
      if (current_fit : WithTop α) < s.gbest_fit then
        { swarm := s.swarm.set k q1
          gbest_pos := q.pos
          gbest_fit := (current_fit : WithTop α)
          drawn := s.drawn + 2 }
      else
        { swarm := s.swarm.set k q1
          gbest_pos := s.gbest_pos
          gbest_fit := s.gbest_fit
          drawn := s.drawn + 2 }
    else
      { swarm := s.swarm.set k q
        gbest_pos := s.gbest_pos
        gbest_fit := s.gbest_fit
        drawn := s.drawn + 2 }

/-- Lines 103-138 stopped after the first `k` particles of the sweep. -/
def sweepUpTo (f : α → α → α) (ρ : ℕ → α) (P : Params α)
    (s : State α) (k : ℕ) : State α :=
  (List.range k).foldl (updateParticle f ρ P) s

/-- Lines 103-138: one pass of `for (auto &p : swarm)`. -/
def iteration (f : α → α → α) (ρ : ℕ → α) (P : Params α) (s : State α) : State α :=
  sweepUpTo f ρ P s s.swarm.length

/-- Lines 101-146: `t` passes of the main loop from state `s`. -/
def iterations (f : α → α → α) (ρ : ℕ → α) (P : Params α) (s : State α) : ℕ → State α
  | 0 => s
  | t + 1 => iteration f ρ P (iterations f ρ P s t)

/-- The state after initialisation and `t` completed iterations. -/
def afterIter (f : α → α → α) (ρ : ℕ → α) (P : Params α) (t : ℕ) : State α :=
  iterations f ρ P (initSwarm f ρ P) t

/-- The state inside iteration `t + 1`, after the updates of particles
`0 .. k - 1`. -/
def observe (f : α → α → α) (ρ : ℕ → α) (P : Params α) (t k : ℕ) : State α :=
  sweepUpTo f ρ P (afterIter f ρ P t) k

/-- Lines 62-153: the state when the final result is printed. -/
def run (f : α → α → α) (ρ : ℕ → α) (P : Params α) : State α :=
  afterIter f ρ P P.MAX_ITER

/-- Lines 152-153: the reported fitness and position. -/
def report (s : State α) : WithTop α × (α × α) :=
  (s.gbest_fit, s.gbest_pos)

/-- Lines 106-123 applied to particle `p` in state `s`: the draws `r1`, `r2`
are the next two elements of the draw sequence and the global best is the
current one. -/
def moved (ρ : ℕ → α) (P : Params α) (s : State α) (p : Particle α) : Particle α :=
  move P (ρ s.drawn) (ρ (s.drawn + 1)) s.gbest_pos p

/-- Lines 126-131 as a function of the moved particle `q`: the particle that
`updateParticle` stores. -/
def keepBest (f : α → α → α) (q : Particle α) : Particle α :=
  if f q.pos.1 q.pos.2 < q.pbest_fit then
    { pos := q.pos, vel := q.vel, pbest := q.pos, pbest_fit := f q.pos.1 q.pos.2 }
  else q

/-- Index `i` is the first index below `k` at which `g` is least. -/
def IsFirstMin (g : ℕ → α) (k i : ℕ) : Prop :=
  i < k ∧ (∀ j, j < k → g i ≤ g j) ∧ (∀ j, j < i → g i < g j)

/-- Every stored personal best fitness is the objective at the stored
personal best position. -/
def PbestConsistent (f : α → α → α) (s : State α) : Prop :=
  ∀ (i : ℕ) (p : Particle α), s.swarm[i]? = some p → p.pbest_fit = f p.pbest.1 p.pbest.2

/-- The global best fitness is below every personal best fitness. -/
def Dominated (s : State α) : Prop :=
  ∀ (i : ℕ) (p : Particle α), s.swarm[i]? = some p → s.gbest_fit ≤ (p.pbest_fit : WithTop α)

/-- Some particle's personal best is the global best. -/
def Attained (s : State α) : Prop :=
  ∃ (i : ℕ) (p : Particle α), s.swarm[i]? = some p ∧ p.pbest = s.gbest_pos ∧
    s.gbest_fit = (p.pbest_fit : WithTop α)

/-- Every personal best fitness is below the objective at the current position. -/
def PbestBelowPos (f : α → α → α) (s : State α) : Prop :=
  ∀ (i : ℕ) (p : Particle α), s.swarm[i]? = some p → p.pbest_fit ≤ f p.pos.1 p.pos.2

/-- A point of the plane lies in the search domain `[X_MIN, X_MAX]^2`. -/
def InDomain (P : Params α) (x : α × α) : Prop :=
  (P.X_MIN ≤ x.1 ∧ x.1 ≤ P.X_MAX) ∧ (P.X_MIN ≤ x.2 ∧ x.2 ≤ P.X_MAX)

/-- Every particle's position and personal best position lie in the search
domain. -/
def SwarmInDomain (P : Params α) (s : State α) : Prop :=
  ∀ (i : ℕ) (p : Particle α), s.swarm[i]? = some p → InDomain P p.pos ∧ InDomain P p.pbest

/-- The synchronous variant of `updateParticle` described in the
specification: the move uses the global best position `g0` recorded at the
start of the iteration instead of the current one; everything else is as in
`updateParticle`. -/
def updateParticleSync (f : α → α → α) (ρ : ℕ → α) (P : Params α) (g0 : α × α)
    (s : State α) (k : ℕ) : State α :=
  match s.swarm[k]? with
  | none => s
  | some p =>
    let r1 := ρ s.drawn
    let r2 := ρ (s.drawn + 1)
    let q := move P r1 r2 g0 p
    let current_fit := f q.pos.1 q.pos.2
    if current_fit < q.pbest_fit then
      let q1 : Particle α :=
        { pos := q.pos, vel := q.vel, pbest := q.pos, pbest_fit := current_fit }
      if (current_fit : WithTop α) < s.gbest_fit then
        { swarm := s.swarm.set k q1
          gbest_pos := q.pos
          gbest_fit := (current_fit : WithTop α)
          drawn := s.drawn + 2 }
      else
        { swarm := s.swarm.set k q1
          gbest_pos := s.gbest_pos
          gbest_fit := s.gbest_fit
          drawn := s.drawn + 2 }
    else
      { swarm := s.swarm.set k q
        gbest_pos := s.gbest_pos
        gbest_fit := s.gbest_fit
        drawn := s.drawn + 2 }

/-- The synchronous variant of `iteration`: every particle of the sweep sees
the global best position of the start of the iteration. -/
def syncIteration (f : α → α → α) (ρ : ℕ → α) (P : Params α) (s : State α) : State α :=
  (List.range s.swarm.length).foldl (updateParticleSync f ρ P s.gbest_pos) s

/-- The variant of `updateParticle` in which the global-best test is not
nested: after the personal-best update the new fitness is compared with the
global best fitness unconditionally. -/
def updateParticleFlat (f : α → α → α) (ρ : ℕ → α) (P : Params α)
    (s : State α) (k : ℕ) : State α :=
  match s.swarm[k]? with
  | none => s
  | some p =>
    let r1 := ρ s.drawn
    let r2 := ρ (s.drawn + 1)
    let q := move P r1 r2 s.gbest_pos p
    let current_fit := f q.pos.1 q.pos.2
    let q1 : Particle α :=
      if current_fit < q.pbest_fit then
        { pos := q.pos, vel := q.vel, pbest := q.pos, pbest_fit := current_fit }
      else q
    if (current_fit : WithTop α) < s.gbest_fit then
      { swarm := s.swarm.set k q1
        gbest_pos := q.pos
        gbest_fit := (current_fit : WithTop α)
        drawn := s.drawn + 2 }
    else
      { swarm := s.swarm.set k q1
        gbest_pos := s.gbest_pos
        gbest_fit := s.gbest_fit
        drawn := s.drawn + 2 }

end Defs

/-! ### The Ackley objective over the real numbers -/

/-- Line 13: `const double PI = acos(-1.0);`. -/
noncomputable def PI : ℝ := Real.arccos (-1)

/-- Line 14: `const double E = exp(1.0);`. -/
noncomputable def E : ℝ := Real.exp 1

/-- Lines 53-57: `ackley`, read over the real numbers. -/
noncomputable def ackley (x y : ℝ) : ℝ :=
  -20 * Real.exp (-0.2 * Real.sqrt (0.5 * (x * x + y * y)))
    - Real.exp (0.5 * (Real.cos (2 * PI * x) + Real.cos (2 * PI * y)))
    + E + 20

/-! ### Binary64 rounding -/

/-- Round a rational to the nearest integer, a tie going to the even
neighbour. -/
def roundToEven (q : ℚ) : ℤ :=
  let n := ⌊q⌋
  let r := q - n
  if r < 1 / 2 then n
  else if 1 / 2 < r then n + 1
  else if n % 2 = 0 then n else n + 1

/-- Raise the candidate exponent `e` as long as `2 ^ (e + 1) ≤ x`, at most
`n` times. -/
def binadeUp (x : ℚ) : ℕ → ℤ → ℤ
  | 0, e => e
  | n + 1, e => if (2 : ℚ) ^ (e + 1) ≤ x then binadeUp x n (e + 1) else e

/-- Lower the candidate exponent `e` as long as `x < 2 ^ e`, at most `n`
times. -/
def binadeDown (x : ℚ) : ℕ → ℤ → ℤ
  | 0, e => e
  | n + 1, e => if x < (2 : ℚ) ^ e then binadeDown x n (e - 1) else e

/-- The binary64 exponent of `x ≠ 0`: the `e` with `2 ^ e ≤ |x| < 2 ^ (e + 1)`,
kept within the exponent range `-1022 .. 1023` of the format (below
`2 ^ (-1022)` the values are subnormal and share the exponent `-1022`). -/
def binade (x : ℚ) : ℤ :=
  binadeDown |x| 1022 (binadeUp |x| 1023 0)

/-- The result of a `double` operation whose exact value is `x`: the nearest
multiple of `2 ^ (binade x - 52)` (53 significant bits), ties to even, which is
the default rounding of IEEE 754 binary64. Overflow to infinity is not
modelled. -/
def roundDouble (x : ℚ) : ℚ :=
  if x = 0 then 0
  else (roundToEven (x / (2 : ℚ) ^ (binade x - 52)) : ℚ) * (2 : ℚ) ^ (binade x - 52)

/-- The source constants with a swarm of two particles and two iterations. -/
def demoParams : Params ℚ :=
  { sourceParams with POP_SIZE := 2, MAX_ITER := 2 }

/-- The objective `x^2 + y^2`. -/
def sphere (x y : ℚ) : ℚ := x * x + y * y

/-- A scripted draw sequence with values in `[0, 1)`. -/
def demoDraws (n : ℕ) : ℚ := ((3 * n + 1) % 8 : ℕ) / 8

/-- The draws of `demoDraws` up to index 15, and `0` afterwards: 16 is the
number of draws that a run with `demoParams` consumes. -/
def demoDrawsCut (n : ℕ) : ℚ := if n < 16 then demoDraws n else 0

/-- The source constants with a single particle and a single iteration. -/
def singleParams : Params ℚ :=
  { sourceParams with POP_SIZE := 1, MAX_ITER := 1 }

/-- A scripted draw sequence (twelve draws, then `0`) for two particles and
one iteration: particle 0 starts at `(4, 0)`, particle 1 at `(-2, 0)`, both
at rest, and every `r1`, `r2` is `1 / 2`. -/
def chaseDraws (n : ℕ) : ℚ :=
  ([9 / 10, 1 / 2, 1 / 2, 1 / 2, 3 / 10, 1 / 2, 1 / 2, 1 / 2,
    1 / 2, 1 / 2, 1 / 2, 1 / 2] : List ℚ).getD n 0

/-- A scripted draw sequence (twelve draws, then `0`) for two particles and
one iteration: particle 0 starts at rest at the origin, particle 1 at
`(-5, -5)` with velocity `(15 / 2, 15 / 2)`, and its update draws
`r1 = 1 / 2`, `r2 = 7 / 8`. -/
def pushDraws (n : ℕ) : ℚ :=
  ([1 / 2, 1 / 2, 1 / 2, 1 / 2, 0, 0, 7 / 8, 7 / 8,
    1 / 2, 1 / 2, 1 / 2, 7 / 8] : List ℚ).getD n 0

/-- A state that no run reaches: the global best fitness `18` is above the
personal best fitness `0` of the only particle. -/
def strayState : State ℚ :=
  { swarm := [{ pos := (1, 1), vel := (0, 0), pbest := (1, 1), pbest_fit := 0 }]
    gbest_pos := (3, 3)
    gbest_fit := ((18 : ℚ) : WithTop ℚ)
    drawn := 0 }

/-- The state reached with `sphere`, `pushDraws` and `demoParams` after
initialisation and the update of particle 0 in iteration 1. -/
def pushState : State ℚ :=
  { swarm := [{ pos := (0, 0), vel := (0, 0), pbest := (0, 0), pbest_fit := 0 },
      { pos := (-5, -5), vel := (15 / 2, 15 / 2), pbest := (-5, -5), pbest_fit := 50 }]
    gbest_pos := (0, 0)
    gbest_fit := ((0 : ℚ) : WithTop ℚ)
    drawn := 10 }

/-! ### Lemmas on one particle update and on sweeps -/

section Lemmas

variable {α : Type} [LinearOrderedField α]

theorem updateParticle_of_none (f : α → α → α) (ρ : ℕ → α) (P : Params α)
    (s : State α) (k : ℕ) (h : s.swarm[k]? = none) :
    updateParticle f ρ P s k = s := by
  unfold updateParticle
  rw [h]

theorem updateParticle_swarm (f : α → α → α) (ρ : ℕ → α) (P : Params α)
    (s : State α) (k : ℕ) (p : Particle α) (h : s.swarm[k]? = some p) :
    (updateParticle f ρ P s k).swarm = s.swarm.set k (keepBest f (moved ρ P s p)) := by
  unfold updateParticle keepBest moved
  rw [h]
  simp only [move]
  split_ifs <;> rfl

theorem updateParticle_drawn (f : α → α → α) (ρ : ℕ → α) (P : Params α)
    (s : State α) (k : ℕ) (p : Particle α) (h : s.swarm[k]? = some p) :
    (updateParticle f ρ P s k).drawn = s.drawn + 2 := by
  unfold updateParticle
  rw [h]
  simp only
  split_ifs <;> rfl

theorem updateParticle_gbest (f : α → α → α) (ρ : ℕ → α) (P : Params α)
    (s : State α) (k : ℕ) (p : Particle α) (h : s.swarm[k]? = some p) :
    ((updateParticle f ρ P s k).gbest_fit, (updateParticle f ρ P s k).gbest_pos) =
      if f (moved ρ P s p).pos.1 (moved ρ P s p).pos.2 < p.pbest_fit ∧
          ((f (moved ρ P s p).pos.1 (moved ρ P s p).pos.2 : α) : WithTop α) < s.gbest_fit then
        (((f (moved ρ P s p).pos.1 (moved ρ P s p).pos.2 : α) : WithTop α), (moved ρ P s p).pos)
      else (s.gbest_fit, s.gbest_pos) := by
  unfold updateParticle moved
  rw [h]
  simp only [move]
  split_ifs <;> simp_all

theorem updateParticle_length (f : α → α → α) (ρ : ℕ → α) (P : Params α)
    (s : State α) (k : ℕ) :
    (updateParticle f ρ P s k).swarm.length = s.swarm.length := by
  cases h : s.swarm[k]? with
  | none => rw [updateParticle_of_none f ρ P s k h]
  | some p => rw [updateParticle_swarm f ρ P s k p h, List.length_set]

theorem updateParticle_getElem?_ne (f : α → α → α) (ρ : ℕ → α) (P : Params α)
    (s : State α) (k i : ℕ) (hik : k ≠ i) :
    (updateParticle f ρ P s k).swarm[i]? = s.swarm[i]? := by
  cases h : s.swarm[k]? with
  | none => rw [updateParticle_of_none f ρ P s k h]
  | some p => rw [updateParticle_swarm f ρ P s k p h, List.getElem?_set_ne hik]

theorem updateParticle_getElem?_self (f : α → α → α) (ρ : ℕ → α) (P : Params α)
    (s : State α) (k : ℕ) (p : Particle α) (h : s.swarm[k]? = some p) :
    (updateParticle f ρ P s k).swarm[k]? = some (keepBest f (moved ρ P s p)) := by
  rw [updateParticle_swarm f ρ P s k p h]
  exact List.getElem?_set_self (List.getElem?_eq_some.mp h).1

theorem sweepUpTo_zero (f : α → α → α) (ρ : ℕ → α) (P : Params α) (s : State α) :
    sweepUpTo f ρ P s 0 = s := rfl

theorem sweepUpTo_succ (f : α → α → α) (ρ : ℕ → α) (P : Params α) (s : State α) (k : ℕ) :
    sweepUpTo f ρ P s (k + 1) = updateParticle f ρ P (sweepUpTo f ρ P s k) k := by
  simp [sweepUpTo, List.range_succ]

/-- A property kept by every particle update is kept by a (partial) sweep. -/
theorem sweepUpTo_induct (f : α → α → α) (ρ : ℕ → α) (P : Params α) (I : State α → Prop)
    (hstep : ∀ s k, I s → I (updateParticle f ρ P s k)) (s : State α) (hs : I s) (k : ℕ) :
    I (sweepUpTo f ρ P s k) := by
  induction k with
  | zero => exact hs
  | succ k ih => rw [sweepUpTo_succ]; exact hstep _ _ ih

theorem iterations_induct (f : α → α → α) (ρ : ℕ → α) (P : Params α) (I : State α → Prop)
    (hstep : ∀ s k, I s → I (updateParticle f ρ P s k)) (s : State α) (hs : I s) (t : ℕ) :
    I (iterations f ρ P s t) := by
  induction t with
  | zero => exact hs
  | succ t ih => exact sweepUpTo_induct f ρ P I hstep _ ih _

theorem observe_induct (f : α → α → α) (ρ : ℕ → α) (P : Params α) (I : State α → Prop)
    (hstep : ∀ s k, I s → I (updateParticle f ρ P s k)) (hs : I (initSwarm f ρ P)) (t k : ℕ) :
    I (observe f ρ P t k) :=
  sweepUpTo_induct f ρ P I hstep _ (iterations_induct f ρ P I hstep _ hs t) k

theorem initUpTo_succ (f : α → α → α) (ρ : ℕ → α) (P : Params α) (k : ℕ) :
    initUpTo f ρ P (k + 1) = initParticle f ρ P (initUpTo f ρ P k) k := by
  simp [initUpTo, List.range_succ]

theorem initParticle_swarm (f : α → α → α) (ρ : ℕ → α) (P : Params α) (s : State α) (i : ℕ) :
    (initParticle f ρ P s i).swarm = s.swarm.set i (freshParticle f ρ P s.drawn) := by
  unfold initParticle
  simp only
  split_ifs <;> rfl

theorem initParticle_drawn (f : α → α → α) (ρ : ℕ → α) (P : Params α) (s : State α) (i : ℕ) :
    (initParticle f ρ P s i).drawn = s.drawn + 4 := by
  unfold initParticle
  simp only
  split_ifs <;> rfl

theorem initUpTo_drawn (f : α → α → α) (ρ : ℕ → α) (P : Params α) (k : ℕ) :
    (initUpTo f ρ P k).drawn = 4 * k := by
  induction k with
  | zero => rfl
  | succ k ih => rw [initUpTo_succ, initParticle_drawn, ih]; ring

theorem initUpTo_length (f : α → α → α) (ρ : ℕ → α) (P : Params α) (k : ℕ) :
    (initUpTo f ρ P k).swarm.length = P.POP_SIZE := by
  induction k with
  | zero => simp [initUpTo, start]
  | succ k ih => rw [initUpTo_succ, initParticle_swarm, List.length_set, ih]

theorem initUpTo_getElem? (f : α → α → α) (ρ : ℕ → α) (P : Params α) (k : ℕ)
    (hk : k ≤ P.POP_SIZE) (i : ℕ) (hi : i < k) :
    (initUpTo f ρ P k).swarm[i]? = some (freshParticle f ρ P (4 * i)) := by
  induction k with
  | zero => omega
  | succ k ih =>
    rw [initUpTo_succ, initParticle_swarm, initUpTo_drawn]
    by_cases hik : k = i
    · subst hik
      exact List.getElem?_set_self (by rw [initUpTo_length]; omega)
    · rw [List.getElem?_set_ne hik]
      exact ih (by omega) (by omega)

theorem initParticle_gbest (f : α → α → α) (ρ : ℕ → α) (P : Params α) (s : State α) (i : ℕ) :
    ((initParticle f ρ P s i).gbest_fit, (initParticle f ρ P s i).gbest_pos) =
      if ((freshParticle f ρ P s.drawn).pbest_fit : WithTop α) < s.gbest_fit then
        (((freshParticle f ρ P s.drawn).pbest_fit : WithTop α), (freshParticle f ρ P s.drawn).pos)
      else (s.gbest_fit, s.gbest_pos) := by
  unfold initParticle
  simp only
  split_ifs <;> rfl

theorem initUpTo_gbest (f : α → α → α) (ρ : ℕ → α) (P : Params α) (k : ℕ) :
    (k = 0 ∧ (initUpTo f ρ P k).gbest_fit = ⊤ ∧ (initUpTo f ρ P k).gbest_pos = (0, 0)) ∨
    ∃ i, IsFirstMin (fun j => (freshParticle f ρ P (4 * j)).pbest_fit) k i ∧
      (initUpTo f ρ P k).gbest_fit = ((freshParticle f ρ P (4 * i)).pbest_fit : WithTop α) ∧
      (initUpTo f ρ P k).gbest_pos = (freshParticle f ρ P (4 * i)).pos := by
  induction k with
  | zero => exact Or.inl ⟨rfl, rfl, rfl⟩
  | succ k ih =>
    right
    have hg := initParticle_gbest f ρ P (initUpTo f ρ P k) k
    rw [← initUpTo_succ, initUpTo_drawn] at hg
    by_cases hlt : ((freshParticle f ρ P (4 * k)).pbest_fit : WithTop α) <
        (initUpTo f ρ P k).gbest_fit
    · rw [if_pos hlt] at hg
      have h1 := congrArg Prod.fst hg
      have h2 := congrArg Prod.snd hg
      simp only at h1 h2
      refine ⟨k, ⟨Nat.lt_succ_self k, ?_, ?_⟩, h1, h2⟩
      · intro j hj
        rcases ih with ⟨h0, _, _⟩ | ⟨i, ⟨_, hmin, _⟩, hfit, _⟩
        · have : j = k := by omega
          subst this; exact le_refl _
        · rw [hfit, WithTop.coe_lt_coe] at hlt
          rcases Nat.lt_succ_iff_lt_or_eq.mp hj with hj | hj
          · exact le_of_lt (lt_of_lt_of_le hlt (hmin j hj))
          · subst hj; exact le_refl _
      · intro j hj
        rcases ih with ⟨h0, _, _⟩ | ⟨i, ⟨_, hmin, _⟩, hfit, _⟩
        · omega
        · rw [hfit, WithTop.coe_lt_coe] at hlt
          exact lt_of_lt_of_le hlt (hmin j hj)
    · rw [if_neg hlt] at hg
      have h1 := congrArg Prod.fst hg
      have h2 := congrArg Prod.snd hg
      simp only at h1 h2
      rcases ih with ⟨_, htop, _⟩ | ⟨i, ⟨hik, hmin, hfirst⟩, hfit, hpos⟩
      · exact absurd (htop ▸ WithTop.coe_lt_top _) hlt
      · rw [hfit, WithTop.coe_lt_coe, not_lt] at hlt
        refine ⟨i, ⟨Nat.lt_succ_of_lt hik, ?_, hfirst⟩, h1.trans hfit, h2.trans hpos⟩
        intro j hj
        rcases Nat.lt_succ_iff_lt_or_eq.mp hj with hj | hj
        · exact hmin j hj
        · subst hj; exact hlt

theorem updateParticle_gbest_fit (f : α → α → α) (ρ : ℕ → α) (P : Params α)
    (s : State α) (k : ℕ) (p : Particle α) (h : s.swarm[k]? = some p) :
    (updateParticle f ρ P s k).gbest_fit =
      if f (moved ρ P s p).pos.1 (moved ρ P s p).pos.2 < p.pbest_fit ∧
          ((f (moved ρ P s p).pos.1 (moved ρ P s p).pos.2 : α) : WithTop α) < s.gbest_fit then
        ((f (moved ρ P s p).pos.1 (moved ρ P s p).pos.2 : α) : WithTop α)
      else s.gbest_fit := by
  have hg := congrArg Prod.fst (updateParticle_gbest f ρ P s k p h)
  rw [apply_ite Prod.fst] at hg
  exact hg

theorem updateParticle_gbest_pos (f : α → α → α) (ρ : ℕ → α) (P : Params α)
    (s : State α) (k : ℕ) (p : Particle α) (h : s.swarm[k]? = some p) :
    (updateParticle f ρ P s k).gbest_pos =
      if f (moved ρ P s p).pos.1 (moved ρ P s p).pos.2 < p.pbest_fit ∧
          ((f (moved ρ P s p).pos.1 (moved ρ P s p).pos.2 : α) : WithTop α) < s.gbest_fit then
        (moved ρ P s p).pos
      else s.gbest_pos := by
  have hg := congrArg Prod.snd (updateParticle_gbest f ρ P s k p h)
  rw [apply_ite Prod.snd] at hg
  exact hg

theorem updateParticle_gbest_fit_le (f : α → α → α) (ρ : ℕ → α) (P : Params α)
    (s : State α) (k : ℕ) :
    (updateParticle f ρ P s k).gbest_fit ≤ s.gbest_fit := by
  cases h : s.swarm[k]? with
  | none => rw [updateParticle_of_none f ρ P s k h]
  | some p =>
    rw [updateParticle_gbest_fit f ρ P s k p h]
    split_ifs with hc
    · exact le_of_lt hc.2
    · exact le_refl _

theorem moved_pbest (ρ : ℕ → α) (P : Params α) (s : State α) (p : Particle α) :
    (moved ρ P s p).pbest = p.pbest := rfl

theorem moved_pbest_fit (ρ : ℕ → α) (P : Params α) (s : State α) (p : Particle α) :
    (moved ρ P s p).pbest_fit = p.pbest_fit := rfl

theorem keepBest_pos (f : α → α → α) (q : Particle α) : (keepBest f q).pos = q.pos := by
  unfold keepBest; split_ifs <;> rfl

theorem keepBest_vel (f : α → α → α) (q : Particle α) : (keepBest f q).vel = q.vel := by
  unfold keepBest; split_ifs <;> rfl

theorem keepBest_pbest_fit (f : α → α → α) (q : Particle α) :
    (keepBest f q).pbest_fit =
      if f q.pos.1 q.pos.2 < q.pbest_fit then f q.pos.1 q.pos.2 else q.pbest_fit := by
  unfold keepBest; split_ifs <;> rfl

theorem keepBest_pbest (f : α → α → α) (q : Particle α) :
    (keepBest f q).pbest =
      if f q.pos.1 q.pos.2 < q.pbest_fit then q.pos else q.pbest := by
  unfold keepBest; split_ifs <;> rfl

theorem pbestConsistent_step (f : α → α → α) (ρ : ℕ → α) (P : Params α)
    (s : State α) (k : ℕ) (h : PbestConsistent f s) :
    PbestConsistent f (updateParticle f ρ P s k) := by
  cases hk : s.swarm[k]? with
  | none => rwa [updateParticle_of_none f ρ P s k hk]
  | some p =>
    intro i p1 hp1
    by_cases hik : k = i
    · subst hik
      rw [updateParticle_getElem?_self f ρ P s k p hk] at hp1
      injection hp1 with hp1
      subst hp1
      rw [keepBest_pbest_fit, keepBest_pbest]
      split_ifs
      · rfl
      · exact h k p hk
    · rw [updateParticle_getElem?_ne f ρ P s k i hik] at hp1
      exact h i p1 hp1

theorem pbestBelowPos_step (f : α → α → α) (ρ : ℕ → α) (P : Params α)
    (s : State α) (k : ℕ) (h : PbestBelowPos f s) :
    PbestBelowPos f (updateParticle f ρ P s k) := by
  cases hk : s.swarm[k]? with
  | none => rwa [updateParticle_of_none f ρ P s k hk]
  | some p =>
    intro i p1 hp1
    by_cases hik : k = i
    · subst hik
      rw [updateParticle_getElem?_self f ρ P s k p hk] at hp1
      injection hp1 with hp1
      subst hp1
      rw [keepBest_pbest_fit, keepBest_pos]
      split_ifs with hc
      · exact le_refl _
      · exact not_lt.mp hc
    · rw [updateParticle_getElem?_ne f ρ P s k i hik] at hp1
      exact h i p1 hp1

theorem dominated_step (f : α → α → α) (ρ : ℕ → α) (P : Params α)
    (s : State α) (k : ℕ) (h : Dominated s) :
    Dominated (updateParticle f ρ P s k) := by
  cases hk : s.swarm[k]? with
  | none => rwa [updateParticle_of_none f ρ P s k hk]
  | some p =>
    intro i p1 hp1
    by_cases hik : k = i
    · subst hik
      rw [updateParticle_getElem?_self f ρ P s k p hk] at hp1
      injection hp1 with hp1
      subst hp1
      rw [keepBest_pbest_fit, updateParticle_gbest_fit f ρ P s k p hk, moved_pbest_fit]
      by_cases h1 : f (moved ρ P s p).pos.1 (moved ρ P s p).pos.2 < p.pbest_fit
      · by_cases h2 : ((f (moved ρ P s p).pos.1 (moved ρ P s p).pos.2 : α) : WithTop α)
            < s.gbest_fit
        · rw [if_pos ⟨h1, h2⟩, if_pos h1]
        · rw [if_neg (fun hc => h2 hc.2), if_pos h1]
          exact not_lt.mp h2
      · rw [if_neg (fun hc => h1 hc.1), if_neg h1]
        exact h k p hk
    · rw [updateParticle_getElem?_ne f ρ P s k i hik] at hp1
      exact le_trans (updateParticle_gbest_fit_le f ρ P s k) (h i p1 hp1)

theorem attained_step (f : α → α → α) (ρ : ℕ → α) (P : Params α)
    (s : State α) (k : ℕ) (h : Attained s) :
    Attained (updateParticle f ρ P s k) := by
  cases hk : s.swarm[k]? with
  | none => rwa [updateParticle_of_none f ρ P s k hk]
  | some p =>
    obtain ⟨i, p0, hp0, hpos, hfit⟩ := h
    unfold Attained
    rw [updateParticle_gbest_fit f ρ P s k p hk, updateParticle_gbest_pos f ρ P s k p hk]
    by_cases hc : f (moved ρ P s p).pos.1 (moved ρ P s p).pos.2 < p.pbest_fit ∧
        ((f (moved ρ P s p).pos.1 (moved ρ P s p).pos.2 : α) : WithTop α) < s.gbest_fit
    · rw [if_pos hc, if_pos hc]
      refine ⟨k, _, updateParticle_getElem?_self f ρ P s k p hk, ?_, ?_⟩
      · rw [keepBest_pbest, moved_pbest_fit, if_pos hc.1]
      · rw [keepBest_pbest_fit, moved_pbest_fit, if_pos hc.1]
    · rw [if_neg hc, if_neg hc]
      by_cases hik : k = i
      · subst hik
        rw [hk] at hp0
        injection hp0 with hp0
        subst hp0
        have h1 : ¬ f (moved ρ P s p).pos.1 (moved ρ P s p).pos.2 < p.pbest_fit := by
          intro h1
          exact hc ⟨h1, by rw [hfit]; exact WithTop.coe_lt_coe.mpr h1⟩
        refine ⟨k, _, updateParticle_getElem?_self f ρ P s k p hk, ?_, ?_⟩
        · rw [keepBest_pbest, moved_pbest_fit, if_neg h1]; exact hpos
        · rw [keepBest_pbest_fit, moved_pbest_fit, if_neg h1]; exact hfit
      · exact ⟨i, p0, by rw [updateParticle_getElem?_ne f ρ P s k i hik]; exact hp0, hpos, hfit⟩

theorem initSwarm_getElem? (f : α → α → α) (ρ : ℕ → α) (P : Params α) (i : ℕ)
    (hi : i < P.POP_SIZE) :
    (initSwarm f ρ P).swarm[i]? = some (freshParticle f ρ P (4 * i)) :=
  initUpTo_getElem? f ρ P P.POP_SIZE (le_refl _) i hi

theorem initSwarm_getElem?_some (f : α → α → α) (ρ : ℕ → α) (P : Params α) (i : ℕ)
    (p : Particle α) (h : (initSwarm f ρ P).swarm[i]? = some p) :
    i < P.POP_SIZE ∧ p = freshParticle f ρ P (4 * i) := by
  have hi : i < P.POP_SIZE := by
    have := (List.getElem?_eq_some.mp h).1
    rwa [initSwarm, initUpTo_length] at this
  rw [initSwarm_getElem? f ρ P i hi] at h
  exact ⟨hi, (Option.some.inj h).symm⟩

theorem initSwarm_gbest (f : α → α → α) (ρ : ℕ → α) (P : Params α) (hP : 1 ≤ P.POP_SIZE) :
    ∃ i, IsFirstMin (fun j => (freshParticle f ρ P (4 * j)).pbest_fit) P.POP_SIZE i ∧
      (initSwarm f ρ P).gbest_fit = ((freshParticle f ρ P (4 * i)).pbest_fit : WithTop α) ∧
      (initSwarm f ρ P).gbest_pos = (freshParticle f ρ P (4 * i)).pos := by
  rcases initUpTo_gbest f ρ P P.POP_SIZE with ⟨h0, _, _⟩ | h
  · omega
  · exact h

theorem pbestConsistent_init (f : α → α → α) (ρ : ℕ → α) (P : Params α) :
    PbestConsistent f (initSwarm f ρ P) := by
  intro i p hp
  rw [(initSwarm_getElem?_some f ρ P i p hp).2]
  rfl

theorem pbestBelowPos_init (f : α → α → α) (ρ : ℕ → α) (P : Params α) :
    PbestBelowPos f (initSwarm f ρ P) := by
  intro i p hp
  rw [(initSwarm_getElem?_some f ρ P i p hp).2]
  exact le_refl _

theorem dominated_init (f : α → α → α) (ρ : ℕ → α) (P : Params α) :
    Dominated (initSwarm f ρ P) := by
  intro i p hp
  obtain ⟨hi, rfl⟩ := initSwarm_getElem?_some f ρ P i p hp
  obtain ⟨m, ⟨_, hmin, _⟩, hfit, _⟩ := initSwarm_gbest f ρ P (by omega)
  rw [hfit]
  exact WithTop.coe_le_coe.mpr (hmin i hi)

theorem attained_init (f : α → α → α) (ρ : ℕ → α) (P : Params α) (hP : 1 ≤ P.POP_SIZE) :
    Attained (initSwarm f ρ P) := by
  obtain ⟨m, ⟨hm, _, _⟩, hfit, hpos⟩ := initSwarm_gbest f ρ P hP
  exact ⟨m, _, initSwarm_getElem? f ρ P m hm, hpos.symm, hfit⟩

theorem clampPos_mem (P : Params α) (hX : P.X_MIN ≤ P.X_MAX) (x : α) :
    P.X_MIN ≤ clampPos P x ∧ clampPos P x ≤ P.X_MAX := by
  unfold clampPos
  by_cases h1 : x < P.X_MIN
  · simp only [h1, if_true]
    have h2 : ¬ P.X_MIN > P.X_MAX := not_lt.mpr hX
    rw [if_neg h2]
    exact ⟨le_refl _, hX⟩
  · simp only [h1, if_false]
    by_cases h2 : x > P.X_MAX
    · rw [if_pos h2]; exact ⟨hX, le_refl _⟩
    · rw [if_neg h2]; exact ⟨not_lt.mp h1, not_lt.mp h2⟩

theorem sweepUpTo_length (f : α → α → α) (ρ : ℕ → α) (P : Params α) (s : State α) (k : ℕ) :
    (sweepUpTo f ρ P s k).swarm.length = s.swarm.length := by
  induction k with
  | zero => rfl
  | succ k ih => rw [sweepUpTo_succ, updateParticle_length, ih]

theorem iterations_length (f : α → α → α) (ρ : ℕ → α) (P : Params α) (s : State α) (t : ℕ) :
    (iterations f ρ P s t).swarm.length = s.swarm.length := by
  induction t with
  | zero => rfl
  | succ t ih => exact (sweepUpTo_length f ρ P _ _).trans ih

theorem afterIter_length (f : α → α → α) (ρ : ℕ → α) (P : Params α) (t : ℕ) :
    (afterIter f ρ P t).swarm.length = P.POP_SIZE :=
  (iterations_length f ρ P _ t).trans (initUpTo_length f ρ P _)

/-- A partial sweep leaves the particles it has not reached untouched. -/
theorem sweepUpTo_getElem?_ge (f : α → α → α) (ρ : ℕ → α) (P : Params α) (s : State α)
    (k i : ℕ) (hki : k ≤ i) :
    (sweepUpTo f ρ P s k).swarm[i]? = s.swarm[i]? := by
  induction k with
  | zero => rfl
  | succ k ih =>
    rw [sweepUpTo_succ, updateParticle_getElem?_ne f ρ P _ k i (by omega)]
    exact ih (by omega)

/-- After its own update a particle is not touched by the rest of the sweep. -/
theorem sweepUpTo_getElem?_lt (f : α → α → α) (ρ : ℕ → α) (P : Params α) (s : State α)
    (k i : ℕ) (hik : i < k) :
    (sweepUpTo f ρ P s k).swarm[i]? = (sweepUpTo f ρ P s (i + 1)).swarm[i]? := by
  induction k with
  | zero => omega
  | succ k ih =>
    by_cases h : i = k
    · subst h; rfl
    · rw [sweepUpTo_succ, updateParticle_getElem?_ne f ρ P _ k i (by omega)]
      exact ih (by omega)

/-- The particle at index `i` after a full sweep is the result of its own
update, performed in the state reached after the updates of particles
`0 .. i - 1`. -/
theorem iteration_getElem? (f : α → α → α) (ρ : ℕ → α) (P : Params α) (s : State α)
    (i : ℕ) (p : Particle α) (h : s.swarm[i]? = some p) :
    (iteration f ρ P s).swarm[i]? =
      some (keepBest f (moved ρ P (sweepUpTo f ρ P s i) p)) := by
  have hi : i < s.swarm.length := (List.getElem?_eq_some.mp h).1
  unfold iteration
  rw [sweepUpTo_getElem?_lt f ρ P s _ i hi, sweepUpTo_succ]
  apply updateParticle_getElem?_self
  rw [sweepUpTo_getElem?_ge f ρ P s i i (le_refl _)]
  exact h

theorem sweepUpTo_drawn (f : α → α → α) (ρ : ℕ → α) (P : Params α) (s : State α)
    (k : ℕ) (hk : k ≤ s.swarm.length) :
    (sweepUpTo f ρ P s k).drawn = s.drawn + 2 * k := by
  induction k with
  | zero => rfl
  | succ k ih =>
    have hlt : k < (sweepUpTo f ρ P s k).swarm.length := by
      rw [sweepUpTo_length]; omega
    rw [sweepUpTo_succ,
      updateParticle_drawn f ρ P _ k _ (List.getElem?_eq_getElem hlt), ih (by omega)]
    ring

theorem afterIter_drawn (f : α → α → α) (ρ : ℕ → α) (P : Params α) (t : ℕ) :
    (afterIter f ρ P t).drawn = 4 * P.POP_SIZE + 2 * P.POP_SIZE * t := by
  induction t with
  | zero => exact initUpTo_drawn f ρ P _
  | succ t ih =>
    show (sweepUpTo f ρ P (afterIter f ρ P t) (afterIter f ρ P t).swarm.length).drawn = _
    rw [sweepUpTo_drawn f ρ P _ _ (le_refl _), ih, afterIter_length]
    ring

theorem afterIter_succ (f : α → α → α) (ρ : ℕ → α) (P : Params α) (t : ℕ) :
    afterIter f ρ P (t + 1) = observe f ρ P t P.POP_SIZE := by
  show sweepUpTo f ρ P (afterIter f ρ P t) (afterIter f ρ P t).swarm.length = _
  rw [afterIter_length]
  rfl

theorem sweepUpTo_gbest_fit_le (f : α → α → α) (ρ : ℕ → α) (P : Params α) (s : State α)
    (k : ℕ) : (sweepUpTo f ρ P s k).gbest_fit ≤ s.gbest_fit := by
  induction k with
  | zero => exact le_refl _
  | succ k ih =>
    rw [sweepUpTo_succ]
    exact le_trans (updateParticle_gbest_fit_le f ρ P _ k) ih

theorem afterIter_gbest_fit_antitone (f : α → α → α) (ρ : ℕ → α) (P : Params α) :
    Antitone (fun t => (afterIter f ρ P t).gbest_fit) :=
  antitone_nat_of_succ_le (fun t => sweepUpTo_gbest_fit_le f ρ P (afterIter f ρ P t) _)

theorem afterIter_getElem?_succ (f : α → α → α) (ρ : ℕ → α) (P : Params α) (t i : ℕ)
    (p : Particle α) (h : (afterIter f ρ P t).swarm[i]? = some p) :
    (afterIter f ρ P (t + 1)).swarm[i]? =
      some (keepBest f (moved ρ P (observe f ρ P t i) p)) :=
  iteration_getElem? f ρ P (afterIter f ρ P t) i p h

/-- During a partial sweep the global best either stays what it was or is
the current position of a particle already updated in this sweep. -/
theorem sweepUpTo_gbest_cases (f : α → α → α) (ρ : ℕ → α) (P : Params α) (s : State α)
    (k : ℕ) :
    ((sweepUpTo f ρ P s k).gbest_fit = s.gbest_fit ∧
        (sweepUpTo f ρ P s k).gbest_pos = s.gbest_pos) ∨
      ∃ (i : ℕ) (p : Particle α), i < k ∧ (sweepUpTo f ρ P s k).swarm[i]? = some p ∧
        (sweepUpTo f ρ P s k).gbest_pos = p.pos ∧
        (sweepUpTo f ρ P s k).gbest_fit = ((f p.pos.1 p.pos.2 : α) : WithTop α) := by
  induction k with
  | zero => exact Or.inl ⟨rfl, rfl⟩
  | succ k ih =>
    rw [sweepUpTo_succ]
    cases hk : (sweepUpTo f ρ P s k).swarm[k]? with
    | none =>
      rw [updateParticle_of_none f ρ P _ k hk]
      rcases ih with h | ⟨i, p, hi, h⟩
      · exact Or.inl h
      · exact Or.inr ⟨i, p, by omega, h⟩
    | some p =>
      rw [updateParticle_gbest_fit f ρ P _ k p hk, updateParticle_gbest_pos f ρ P _ k p hk]
      by_cases hc : f (moved ρ P (sweepUpTo f ρ P s k) p).pos.1
            (moved ρ P (sweepUpTo f ρ P s k) p).pos.2 < p.pbest_fit ∧
          ((f (moved ρ P (sweepUpTo f ρ P s k) p).pos.1
            (moved ρ P (sweepUpTo f ρ P s k) p).pos.2 : α) : WithTop α) <
              (sweepUpTo f ρ P s k).gbest_fit
      · rw [if_pos hc, if_pos hc]
        refine Or.inr ⟨k, _, Nat.lt_succ_self k,
          updateParticle_getElem?_self f ρ P _ k p hk, ?_, ?_⟩
        · rw [keepBest_pos]
        · rw [keepBest_pos]
      · rw [if_neg hc, if_neg hc]
        rcases ih with h | ⟨i, p0, hi, hp0, h⟩
        · exact Or.inl h
        · refine Or.inr ⟨i, p0, by omega, ?_, h⟩
          rw [updateParticle_getElem?_ne f ρ P _ k i (by omega)]
          exact hp0

/-- The global best after `t` iterations is the position some particle had
after initialisation or after one of the iterations `1 .. t`. -/
theorem afterIter_gbest_history (f : α → α → α) (ρ : ℕ → α) (P : Params α)
    (hP : 1 ≤ P.POP_SIZE) (t : ℕ) :
    ∃ (j : ℕ) (i : ℕ) (p : Particle α), j ≤ t ∧ (afterIter f ρ P j).swarm[i]? = some p ∧
      (afterIter f ρ P t).gbest_pos = p.pos ∧
      (afterIter f ρ P t).gbest_fit = ((f p.pos.1 p.pos.2 : α) : WithTop α) := by
  induction t with
  | zero =>
    obtain ⟨m, ⟨hm, _, _⟩, hfit, hpos⟩ := initSwarm_gbest f ρ P hP
    exact ⟨0, m, _, le_refl _, initSwarm_getElem? f ρ P m hm, hpos, hfit⟩
  | succ t ih =>
    rcases sweepUpTo_gbest_cases f ρ P (afterIter f ρ P t) (afterIter f ρ P t).swarm.length
      with ⟨h1, h2⟩ | ⟨i, p, _, hp, h1, h2⟩
    · obtain ⟨j, i, p, hj, hp, hpos, hfit⟩ := ih
      exact ⟨j, i, p, by omega, hp, h2.trans hpos, h1.trans hfit⟩
    · exact ⟨t + 1, i, p, le_refl _, hp, h1, h2⟩

theorem afterIter_gbest_le_eval (f : α → α → α) (ρ : ℕ → α) (P : Params α) (t j i : ℕ)
    (p : Particle α) (hj : j ≤ t) (hp : (afterIter f ρ P j).swarm[i]? = some p) :
    (afterIter f ρ P t).gbest_fit ≤ ((f p.pos.1 p.pos.2 : α) : WithTop α) := by
  have h1 := afterIter_gbest_fit_antitone f ρ P hj
  have h2 : Dominated (afterIter f ρ P j) :=
    iterations_induct f ρ P Dominated (dominated_step f ρ P) _ (dominated_init f ρ P) j
  have h3 : PbestBelowPos f (afterIter f ρ P j) :=
    iterations_induct f ρ P (PbestBelowPos f) (pbestBelowPos_step f ρ P) _
      (pbestBelowPos_init f ρ P) j
  exact le_trans h1 (le_trans (h2 i p hp) (WithTop.coe_le_coe.mpr (h3 i p hp)))

theorem random_range_mem (u lo hi : α) (hu0 : 0 ≤ u) (hu1 : u < 1) (h : lo ≤ hi) :
    lo ≤ random_range u lo hi ∧ random_range u lo hi ≤ hi := by
  unfold random_range
  have hd : 0 ≤ hi - lo := sub_nonneg.mpr h
  constructor
  · nlinarith [mul_nonneg hu0 hd]
  · nlinarith [mul_nonneg (sub_nonneg.mpr hu1.le) hd]

/-- With a constant objective no particle update changes a global best whose
fitness is already that constant. -/
theorem updateParticle_const (c : α) (ρ : ℕ → α) (P : Params α) (x : α × α)
    (s : State α) (k : ℕ) (h : s.gbest_fit = (c : WithTop α) ∧ s.gbest_pos = x) :
    (updateParticle (fun _ _ => c) ρ P s k).gbest_fit = (c : WithTop α) ∧
      (updateParticle (fun _ _ => c) ρ P s k).gbest_pos = x := by
  cases hk : s.swarm[k]? with
  | none => rwa [updateParticle_of_none _ ρ P s k hk]
  | some p =>
    rw [updateParticle_gbest_fit _ ρ P s k p hk, updateParticle_gbest_pos _ ρ P s k p hk]
    have hc : ¬ (c < p.pbest_fit ∧ (c : WithTop α) < s.gbest_fit) := by
      rintro ⟨_, h2⟩
      rw [h.1] at h2
      exact lt_irrefl _ h2
    rw [if_neg hc, if_neg hc]
    exact h

theorem freshParticle_congr (f : α → α → α) (ρ ρ' : ℕ → α) (P : Params α) (c : ℕ)
    (h : ∀ n, n < c + 4 → ρ n = ρ' n) :
    freshParticle f ρ P c = freshParticle f ρ' P c := by
  unfold freshParticle
  rw [h c (by omega), h (c + 1) (by omega), h (c + 2) (by omega), h (c + 3) (by omega)]

theorem initUpTo_congr (f : α → α → α) (ρ ρ' : ℕ → α) (P : Params α) (k : ℕ)
    (h : ∀ n, n < 4 * k → ρ n = ρ' n) :
    initUpTo f ρ P k = initUpTo f ρ' P k := by
  induction k with
  | zero => rfl
  | succ k ih =>
    rw [initUpTo_succ, initUpTo_succ, ← ih (fun n hn => h n (by omega))]
    have hf : freshParticle f ρ P (initUpTo f ρ P k).drawn =
        freshParticle f ρ' P (initUpTo f ρ P k).drawn := by
      apply freshParticle_congr
      intro n hn
      rw [initUpTo_drawn] at hn
      exact h n (by omega)
    unfold initParticle
    rw [hf]

theorem updateParticle_congr (f : α → α → α) (ρ ρ' : ℕ → α) (P : Params α) (s : State α)
    (k : ℕ) (h : ∀ n, n < s.drawn + 2 → ρ n = ρ' n) :
    updateParticle f ρ P s k = updateParticle f ρ' P s k := by
  unfold updateParticle
  rw [h s.drawn (by omega), h (s.drawn + 1) (by omega)]

theorem sweepUpTo_congr (f : α → α → α) (ρ ρ' : ℕ → α) (P : Params α) (s : State α)
    (k : ℕ) (hk : k ≤ s.swarm.length) (h : ∀ n, n < s.drawn + 2 * k → ρ n = ρ' n) :
    sweepUpTo f ρ P s k = sweepUpTo f ρ' P s k := by
  induction k with
  | zero => rfl
  | succ k ih =>
    rw [sweepUpTo_succ, sweepUpTo_succ, ← ih (by omega) (fun n hn => h n (by omega))]
    apply updateParticle_congr
    intro n hn
    rw [sweepUpTo_drawn f ρ P s k (by omega)] at hn
    exact h n (by omega)

theorem afterIter_congr (f : α → α → α) (ρ ρ' : ℕ → α) (P : Params α) (t : ℕ)
    (h : ∀ n, n < 4 * P.POP_SIZE + 2 * P.POP_SIZE * t → ρ n = ρ' n) :
    afterIter f ρ P t = afterIter f ρ' P t := by
  induction t with
  | zero => exact initUpTo_congr f ρ ρ' P _ (fun n hn => h n (by omega))
  | succ t ih =>
    have hm : 2 * P.POP_SIZE * (t + 1) = 2 * P.POP_SIZE * t + 2 * P.POP_SIZE := by ring
    have ih1 := ih (fun n hn => h n (by omega))
    show sweepUpTo f ρ P (afterIter f ρ P t) (afterIter f ρ P t).swarm.length =
      sweepUpTo f ρ' P (afterIter f ρ' P t) (afterIter f ρ' P t).swarm.length
    rw [← ih1]
    apply sweepUpTo_congr f ρ ρ' P _ _ (le_refl _)
    intro n hn
    rw [afterIter_drawn, afterIter_length] at hn
    exact h n (by omega)

theorem observe_congr (f : α → α → α) (ρ ρ' : ℕ → α) (P : Params α) (t k : ℕ)
    (hk : k ≤ P.POP_SIZE)
    (h : ∀ n, n < 4 * P.POP_SIZE + 2 * P.POP_SIZE * t + 2 * k → ρ n = ρ' n) :
    observe f ρ P t k = observe f ρ' P t k := by
  unfold observe
  rw [← afterIter_congr f ρ ρ' P t (fun n hn => h n (by omega))]
  apply sweepUpTo_congr f ρ ρ' P _ _ (by rw [afterIter_length]; exact hk)
  intro n hn
  rw [afterIter_drawn] at hn
  exact h n hn

theorem observe_drawn (f : α → α → α) (ρ : ℕ → α) (P : Params α) (t k : ℕ)
    (hk : k ≤ P.POP_SIZE) :
    (observe f ρ P t k).drawn = 4 * P.POP_SIZE + 2 * P.POP_SIZE * t + 2 * k := by
  unfold observe
  rw [sweepUpTo_drawn f ρ P _ k (by rw [afterIter_length]; exact hk), afterIter_drawn]

theorem demoDraws_mem (n : ℕ) : 0 ≤ demoDraws n ∧ demoDraws n < 1 := by
  unfold demoDraws
  have h : (3 * n + 1) % 8 < 8 := Nat.mod_lt _ (by norm_num)
  have h8 : (((3 * n + 1) % 8 : ℕ) : ℚ) < 8 := by exact_mod_cast h
  constructor
  · positivity
  · rw [div_lt_one (by norm_num)]
    exact h8

theorem demoDrawsCut_agrees (n : ℕ)
    (hn : n < 4 * demoParams.POP_SIZE + 2 * demoParams.POP_SIZE * demoParams.MAX_ITER) :
    demoDraws n = demoDrawsCut n := by
  have h16 : n < 16 := hn
  unfold demoDrawsCut
  rw [if_pos h16]

/-- With a constant objective the global best after initialisation is the
first particle, with the constant as fitness. -/
theorem initSwarm_const (c : α) (ρ : ℕ → α) (P : Params α) (hP : 1 ≤ P.POP_SIZE) :
    (initSwarm (fun _ _ => c) ρ P).gbest_fit = (c : WithTop α) ∧
      (initSwarm (fun _ _ => c) ρ P).gbest_pos = (freshParticle (fun _ _ => c) ρ P 0).pos := by
  obtain ⟨m, ⟨_, _, hfirst⟩, hfit, hpos⟩ := initSwarm_gbest (fun _ _ => c) ρ P hP
  have hm : m = 0 := by
    by_contra hne
    exact lt_irrefl c (hfirst 0 (Nat.pos_of_ne_zero hne))
  subst hm
  exact ⟨hfit, hpos⟩

theorem clampPos_eq_min_max (P : Params α) (x : α) :
    clampPos P x = min (max x P.X_MIN) P.X_MAX := by
  unfold clampPos
  by_cases h1 : x < P.X_MIN
  · simp only [h1, if_true, max_eq_right (le_of_lt h1)]
    by_cases h2 : P.X_MIN > P.X_MAX
    · rw [if_pos h2, min_eq_right (le_of_lt h2)]
    · rw [if_neg h2, min_eq_left (not_lt.mp h2)]
  · simp only [h1, if_false, max_eq_left (not_lt.mp h1)]
    by_cases h2 : x > P.X_MAX
    · rw [if_pos h2, min_eq_right (le_of_lt h2)]
    · rw [if_neg h2, min_eq_left (not_lt.mp h2)]

theorem moved_pos_inDomain (ρ : ℕ → α) (P : Params α) (hX : P.X_MIN ≤ P.X_MAX)
    (s : State α) (p : Particle α) : InDomain P (moved ρ P s p).pos :=
  ⟨clampPos_mem P hX _, clampPos_mem P hX _⟩

theorem swarmInDomain_step (f : α → α → α) (ρ : ℕ → α) (P : Params α)
    (hX : P.X_MIN ≤ P.X_MAX) (s : State α) (k : ℕ) (h : SwarmInDomain P s) :
    SwarmInDomain P (updateParticle f ρ P s k) := by
  cases hk : s.swarm[k]? with
  | none => rwa [updateParticle_of_none f ρ P s k hk]
  | some p =>
    intro i p1 hp1
    by_cases hik : k = i
    · subst hik
      rw [updateParticle_getElem?_self f ρ P s k p hk] at hp1
      injection hp1 with hp1
      subst hp1
      rw [keepBest_pos, keepBest_pbest]
      refine ⟨moved_pos_inDomain ρ P hX s p, ?_⟩
      split_ifs
      · exact moved_pos_inDomain ρ P hX s p
      · exact (h k p hk).2
    · rw [updateParticle_getElem?_ne f ρ P s k i hik] at hp1
      exact h i p1 hp1

theorem swarmInDomain_init (f : α → α → α) (ρ : ℕ → α) (P : Params α)
    (hX : P.X_MIN ≤ P.X_MAX) (hρ : ∀ n, 0 ≤ ρ n ∧ ρ n < 1) :
    SwarmInDomain P (initSwarm f ρ P) := by
  intro i p hp
  obtain ⟨_, rfl⟩ := initSwarm_getElem?_some f ρ P i p hp
  have hpos : InDomain P (freshParticle f ρ P (4 * i)).pos :=
    ⟨random_range_mem _ _ _ (hρ _).1 (hρ _).2 hX, random_range_mem _ _ _ (hρ _).1 (hρ _).2 hX⟩
  exact ⟨hpos, hpos⟩

/-- On a state whose global best fitness is below every personal best
fitness, the nested tests of `updateParticle` and the flat tests of
`updateParticleFlat` give the same state. -/
theorem updateParticle_eq_flat (f : α → α → α) (ρ : ℕ → α) (P : Params α)
    (s : State α) (k : ℕ) (h : Dominated s) :
    updateParticle f ρ P s k = updateParticleFlat f ρ P s k := by
  unfold updateParticle updateParticleFlat
  cases hk : s.swarm[k]? with
  | none => rfl
  | some p =>
    simp only
    have hdom := h k p hk
    by_cases h1 : f (move P (ρ s.drawn) (ρ (s.drawn + 1)) s.gbest_pos p).pos.1
        (move P (ρ s.drawn) (ρ (s.drawn + 1)) s.gbest_pos p).pos.2 <
        (move P (ρ s.drawn) (ρ (s.drawn + 1)) s.gbest_pos p).pbest_fit
    · rw [if_pos h1, if_pos h1]
    · rw [if_neg h1, if_neg h1]
      have h2 : ¬ ((f (move P (ρ s.drawn) (ρ (s.drawn + 1)) s.gbest_pos p).pos.1
          (move P (ρ s.drawn) (ρ (s.drawn + 1)) s.gbest_pos p).pos.2 : α) : WithTop α) <
          s.gbest_fit := by
        intro hlt
        have h3 := lt_of_lt_of_le hlt hdom
        exact h1 (WithTop.coe_lt_coe.mp h3)
      rw [if_neg h2]

theorem PI_eq : PI = Real.pi := Real.arccos_neg_one

theorem ackley_first_exp_le (x y : ℝ) :
    Real.exp (-0.2 * Real.sqrt (0.5 * (x * x + y * y))) ≤ 1 := by
  rw [Real.exp_le_one_iff]
  have := Real.sqrt_nonneg (0.5 * (x * x + y * y))
  linarith

theorem ackley_second_exp_le (x y : ℝ) :
    Real.exp (0.5 * (Real.cos (2 * PI * x) + Real.cos (2 * PI * y))) ≤ E := by
  unfold E
  rw [Real.exp_le_exp]
  have h1 := Real.cos_le_one (2 * PI * x)
  have h2 := Real.cos_le_one (2 * PI * y)
  linarith

theorem ackley_zero : ackley 0 0 = 0 := by
  unfold ackley E
  norm_num

theorem ackley_nonneg (x y : ℝ) : 0 ≤ ackley x y := by
  unfold ackley
  have h1 := ackley_first_exp_le x y
  have h2 := ackley_second_exp_le x y
  linarith

theorem ackley_eq_zero (x y : ℝ) (h : ackley x y = 0) : x = 0 ∧ y = 0 := by
  unfold ackley at h
  have h1 := ackley_first_exp_le x y
  have h2 := ackley_second_exp_le x y
  have hA : Real.exp (-0.2 * Real.sqrt (0.5 * (x * x + y * y))) = 1 := by linarith
  rw [Real.exp_eq_one_iff] at hA
  have hs : Real.sqrt (0.5 * (x * x + y * y)) = 0 := by linarith
  rw [Real.sqrt_eq_zero'] at hs
  constructor
  · nlinarith [mul_self_nonneg x, mul_self_nonneg y]
  · nlinarith [mul_self_nonneg x, mul_self_nonneg y]

theorem chaseDraws_mem (n : ℕ) : 0 ≤ chaseDraws n ∧ chaseDraws n < 1 := by
  unfold chaseDraws
  by_cases h : n < 12
  · interval_cases n <;> norm_num [List.getD]
  · rw [List.getD_eq_default _ _ (by simpa using h)]
    norm_num

theorem pushDraws_mem (n : ℕ) : 0 ≤ pushDraws n ∧ pushDraws n < 1 := by
  unfold pushDraws
  by_cases h : n < 12
  · interval_cases n <;> norm_num [List.getD]
  · rw [List.getD_eq_default _ _ (by simpa using h)]
    norm_num

/-- Sample values of `roundDouble`: binary64 values are fixed, `1 / 10` goes
to the binary64 value `0x1.999999999999ap-4`, a tie goes to the even
neighbour (down at `1 + 2 ^ (-53)`, up at `1 + 3 * 2 ^ (-53)` and at
`2 - 2 ^ (-53)`), and rounding commutes with negation. -/
theorem roundDouble_samples :
    roundDouble 1 = 1 ∧ roundDouble (-5) = -5 ∧ roundDouble (3 / 2) = 3 / 2 ∧
      roundDouble (1 / 10) = 3602879701896397 / 36028797018963968 ∧
      roundDouble (1 + (1 / 2) ^ 53) = 1 ∧
      roundDouble (1 + 3 * (1 / 2) ^ 53) = 1 + (1 / 2) ^ 51 ∧
      roundDouble (2 - (1 / 2) ^ 53) = 2 ∧
      roundDouble (-(2 - (1 / 2) ^ 53)) = -2 := by
  decide!

end Lemmas

/-! ### The claims -/

section Claims

variable {α : Type} [LinearOrderedField α]

/-- C1 (the global best is the best evaluated position). With
`POP_SIZE ≥ 1`, after initialisation and `t` completed iterations:
(a) the positions held by the particles after iteration `j + 1` are the
positions produced by their own moves in that iteration, which are the points
where the objective is evaluated; (b) the global best fitness is at most the
objective at every position held by a particle after initialisation or after
one of the iterations `1 .. t`; (c) the global best position is one of those
positions and the global best fitness is the objective there. -/
theorem gbest_is_min_of_evaluated (f : α → α → α) (ρ : ℕ → α) (P : Params α)
    (hP : 1 ≤ P.POP_SIZE) (t : ℕ) :
    (∀ (j i : ℕ) (p : Particle α), (afterIter f ρ P j).swarm[i]? = some p →
        ∃ q, (afterIter f ρ P (j + 1)).swarm[i]? = some q ∧
          q.pos = (moved ρ P (observe f ρ P j i) p).pos) ∧
      (∀ (j i : ℕ) (p : Particle α), j ≤ t → (afterIter f ρ P j).swarm[i]? = some p →
        (afterIter f ρ P t).gbest_fit ≤ ((f p.pos.1 p.pos.2 : α) : WithTop α)) ∧
      ∃ (j i : ℕ) (p : Particle α), j ≤ t ∧ (afterIter f ρ P j).swarm[i]? = some p ∧
        (afterIter f ρ P t).gbest_pos = p.pos ∧
        (afterIter f ρ P t).gbest_fit = ((f p.pos.1 p.pos.2 : α) : WithTop α) := by
  refine ⟨?_, ?_, afterIter_gbest_history f ρ P hP t⟩
  · intro j i p hp
    exact ⟨_, afterIter_getElem?_succ f ρ P j i p hp, keepBest_pos f _⟩
  · intro j i p hj hp
    exact afterIter_gbest_le_eval f ρ P t j i p hj hp

theorem gbest_is_min_of_evaluated_witness :
    (∀ (j i : ℕ) (p : Particle ℚ), (afterIter sphere demoDraws demoParams j).swarm[i]? = some p →
        ∃ q, (afterIter sphere demoDraws demoParams (j + 1)).swarm[i]? = some q ∧
          q.pos = (moved demoDraws demoParams (observe sphere demoDraws demoParams j i) p).pos) ∧
      (∀ (j i : ℕ) (p : Particle ℚ), j ≤ 2 →
        (afterIter sphere demoDraws demoParams j).swarm[i]? = some p →
        (afterIter sphere demoDraws demoParams 2).gbest_fit ≤
          ((sphere p.pos.1 p.pos.2 : ℚ) : WithTop ℚ)) ∧
      ∃ (j i : ℕ) (p : Particle ℚ), j ≤ 2 ∧
        (afterIter sphere demoDraws demoParams j).swarm[i]? = some p ∧
        (afterIter sphere demoDraws demoParams 2).gbest_pos = p.pos ∧
        (afterIter sphere demoDraws demoParams 2).gbest_fit =
          ((sphere p.pos.1 p.pos.2 : ℚ) : WithTop ℚ) :=
  gbest_is_min_of_evaluated sphere demoDraws demoParams (by decide) 2

/-- C2 (domain containment). With `X_MIN ≤ X_MAX`, whatever the state `s`
(position, velocity, personal best of the particle and global best) before
the step, the particle at index `k` is, after `updateParticle`, at a position
whose two coordinates lie in `[X_MIN, X_MAX]`. -/
theorem position_in_domain_after_update (f : α → α → α) (ρ : ℕ → α) (P : Params α)
    (hX : P.X_MIN ≤ P.X_MAX) (s : State α) (k : ℕ) (p : Particle α)
    (hk : s.swarm[k]? = some p) :
    ∃ q, (updateParticle f ρ P s k).swarm[k]? = some q ∧
      (P.X_MIN ≤ q.pos.1 ∧ q.pos.1 ≤ P.X_MAX) ∧ (P.X_MIN ≤ q.pos.2 ∧ q.pos.2 ≤ P.X_MAX) := by
  refine ⟨_, updateParticle_getElem?_self f ρ P s k p hk, ?_, ?_⟩
  · rw [keepBest_pos]; exact clampPos_mem P hX _
  · rw [keepBest_pos]; exact clampPos_mem P hX _

theorem position_in_domain_after_update_witness :
    ∃ q : Particle ℚ,
      (updateParticle sphere demoDraws demoParams
        { swarm := [{ pos := (100, -100), vel := (3, -4), pbest := (9, 9), pbest_fit := 0 }]
          gbest_pos := (-50, 50), gbest_fit := ⊤, drawn := 0 } 0).swarm[0]? = some q ∧
      (demoParams.X_MIN ≤ q.pos.1 ∧ q.pos.1 ≤ demoParams.X_MAX) ∧
      (demoParams.X_MIN ≤ q.pos.2 ∧ q.pos.2 ≤ demoParams.X_MAX) :=
  position_in_domain_after_update sphere demoDraws demoParams (by decide!) _ 0
    { pos := (100, -100), vel := (3, -4), pbest := (9, 9), pbest_fit := 0 } rfl

/-- C3 (global-best domination). With `POP_SIZE ≥ 1`, after initialisation
and after every particle update of every iteration (`observe t k` is the state
after `t` iterations and `k` further particle updates), the global best
fitness is below every particle's personal best fitness and is equal to the
personal best fitness of some particle: it is the minimum of the personal best
fitness values. -/
theorem gbest_dominates_pbest (f : α → α → α) (ρ : ℕ → α) (P : Params α)
    (hP : 1 ≤ P.POP_SIZE) (t k : ℕ) :
    (∀ p ∈ (observe f ρ P t k).swarm,
        (observe f ρ P t k).gbest_fit ≤ (p.pbest_fit : WithTop α)) ∧
      ∃ p ∈ (observe f ρ P t k).swarm,
        (observe f ρ P t k).gbest_fit = (p.pbest_fit : WithTop α) := by
  constructor
  · intro p hp
    obtain ⟨i, hi⟩ := List.mem_iff_getElem?.mp hp
    exact observe_induct f ρ P Dominated (dominated_step f ρ P) (dominated_init f ρ P) t k i p hi
  · obtain ⟨i, p, hi, _, hfit⟩ :=
      observe_induct f ρ P Attained (attained_step f ρ P) (attained_init f ρ P hP) t k
    exact ⟨p, List.mem_iff_getElem?.mpr ⟨i, hi⟩, hfit⟩

theorem gbest_dominates_pbest_witness :
    (∀ p ∈ (observe sphere demoDraws demoParams 1 1).swarm,
        (observe sphere demoDraws demoParams 1 1).gbest_fit ≤ (p.pbest_fit : WithTop ℚ)) ∧
      ∃ p ∈ (observe sphere demoDraws demoParams 1 1).swarm,
        (observe sphere demoDraws demoParams 1 1).gbest_fit = (p.pbest_fit : WithTop ℚ) :=
  gbest_dominates_pbest sphere demoDraws demoParams (by decide) 1 1

/-- C4 (monotonic improvement). The global best fitness after a particle
update is at most the one before it, so is the one after a whole iteration,
and the sequence of global best fitness values after initialisation and after
iterations 1, 2, ... is non-increasing. -/
theorem gbest_fit_monotone (f : α → α → α) (ρ : ℕ → α) (P : Params α) :
    (∀ (s : State α) (k : ℕ), (updateParticle f ρ P s k).gbest_fit ≤ s.gbest_fit) ∧
      (∀ s : State α, (iteration f ρ P s).gbest_fit ≤ s.gbest_fit) ∧
      Antitone (fun t => (afterIter f ρ P t).gbest_fit) :=
  ⟨updateParticle_gbest_fit_le f ρ P, fun s => sweepUpTo_gbest_fit_le f ρ P s _,
    afterIter_gbest_fit_antitone f ρ P⟩

/-- C5 (personal-best consistency). After initialisation and after every
particle update of every iteration, every particle's personal best fitness is
the objective evaluated at its personal best position. -/
theorem pbest_fit_consistent (f : α → α → α) (ρ : ℕ → α) (P : Params α) (t k : ℕ)
    (p : Particle α) (hp : p ∈ (observe f ρ P t k).swarm) :
    p.pbest_fit = f p.pbest.1 p.pbest.2 := by
  obtain ⟨i, hi⟩ := List.mem_iff_getElem?.mp hp
  exact observe_induct f ρ P (PbestConsistent f) (pbestConsistent_step f ρ P)
    (pbestConsistent_init f ρ P) t k i p hi

theorem pbest_fit_consistent_witness :
    ({ pos := (3 / 2, -7 / 2), vel := (21 / 4, -7 / 2), pbest := (-15 / 4, 0), pbest_fit := 225 / 16 } :
        Particle ℚ) ∈ (observe sphere demoDraws demoParams 0 1).swarm ∧
      (225 / 16 : ℚ) = sphere (-15 / 4) 0 :=
  ⟨by decide!, pbest_fit_consistent sphere demoDraws demoParams 0 1
    { pos := (3 / 2, -7 / 2), vel := (21 / 4, -7 / 2), pbest := (-15 / 4, 0), pbest_fit := 225 / 16 }
    (by decide!)⟩

/-- C6 (the personal best is the first minimum of the particle's own
history). For a particle `i < POP_SIZE`, let `x_j` be its position after
initialisation (`j = 0`) and after iteration `j`; `x_{j+1}` is the position
produced by its move in iteration `j + 1`. After `t` iterations there is
`j ≤ t` such that the personal best position is `x_j`, the personal best
fitness is `f x_j`, `f x_j ≤ f x_m` for every `m ≤ t`, and `f x_j < f x_m` for
every `m < j`. -/
theorem pbest_is_first_min_of_history (f : α → α → α) (ρ : ℕ → α) (P : Params α)
    (i : ℕ) (hi : i < P.POP_SIZE) (t : ℕ) :
    (∀ (j : ℕ) (y : Particle α), (afterIter f ρ P j).swarm[i]? = some y →
        ∃ z, (afterIter f ρ P (j + 1)).swarm[i]? = some z ∧
          z.pos = (moved ρ P (observe f ρ P j i) y).pos) ∧
      ∃ p, (afterIter f ρ P t).swarm[i]? = some p ∧
        ∃ (j : ℕ) (x : Particle α), j ≤ t ∧ (afterIter f ρ P j).swarm[i]? = some x ∧
          p.pbest = x.pos ∧ p.pbest_fit = f x.pos.1 x.pos.2 ∧
          (∀ (m : ℕ) (y : Particle α), m ≤ t → (afterIter f ρ P m).swarm[i]? = some y →
            f x.pos.1 x.pos.2 ≤ f y.pos.1 y.pos.2) ∧
          (∀ (m : ℕ) (y : Particle α), m < j → (afterIter f ρ P m).swarm[i]? = some y →
            f x.pos.1 x.pos.2 < f y.pos.1 y.pos.2) := by
  refine ⟨fun j y hy => ⟨_, afterIter_getElem?_succ f ρ P j i y hy, keepBest_pos f _⟩, ?_⟩
  induction t with
  | zero =>
    have h0 : (afterIter f ρ P 0).swarm[i]? = some (freshParticle f ρ P (4 * i)) :=
      initSwarm_getElem? f ρ P i hi
    refine ⟨_, h0, 0, _, le_refl _, h0, rfl, rfl, ?_, ?_⟩
    · intro m y hm hy
      have hm0 : m = 0 := by omega
      subst hm0
      rw [h0] at hy
      rw [← Option.some.inj hy]
    · intro m y hm
      omega
  | succ t ih =>
    obtain ⟨p, hp, j, x, hj, hx, hpb, hfit, hmin, hfirst⟩ := ih
    have hnew := afterIter_getElem?_succ f ρ P t i p hp
    by_cases hc : f (moved ρ P (observe f ρ P t i) p).pos.1
        (moved ρ P (observe f ρ P t i) p).pos.2 < p.pbest_fit
    · refine ⟨_, hnew, t + 1, _, le_refl _, hnew, ?_, ?_, ?_, ?_⟩
      · rw [keepBest_pbest, moved_pbest_fit, if_pos hc, keepBest_pos]
      · rw [keepBest_pbest_fit, moved_pbest_fit, if_pos hc, keepBest_pos]
      · intro m y hm hy
        rw [keepBest_pos]
        rcases Nat.lt_or_eq_of_le hm with hlt | heq
        · rw [hfit] at hc
          exact le_of_lt (lt_of_lt_of_le hc (hmin m y (by omega) hy))
        · subst heq
          rw [hnew] at hy
          rw [← Option.some.inj hy, keepBest_pos]
      · intro m y hm hy
        rw [keepBest_pos]
        rw [hfit] at hc
        exact lt_of_lt_of_le hc (hmin m y (by omega) hy)
    · refine ⟨_, hnew, j, x, by omega, hx, ?_, ?_, ?_, hfirst⟩
      · rw [keepBest_pbest, moved_pbest_fit, if_neg hc, moved_pbest]
        exact hpb
      · rw [keepBest_pbest_fit, moved_pbest_fit, if_neg hc]
        exact hfit
      · intro m y hm hy
        rcases Nat.lt_or_eq_of_le hm with hlt | heq
        · exact hmin m y (by omega) hy
        · subst heq
          rw [hnew] at hy
          rw [← Option.some.inj hy, keepBest_pos, ← hfit]
          exact not_lt.mp hc

theorem pbest_is_first_min_of_history_witness :
    (∀ (j : ℕ) (y : Particle ℚ), (afterIter sphere demoDraws demoParams j).swarm[1]? = some y →
        ∃ z, (afterIter sphere demoDraws demoParams (j + 1)).swarm[1]? = some z ∧
          z.pos = (moved demoDraws demoParams (observe sphere demoDraws demoParams j 1) y).pos) ∧
      ∃ p, (afterIter sphere demoDraws demoParams 2).swarm[1]? = some p ∧
        ∃ (j : ℕ) (x : Particle ℚ), j ≤ 2 ∧
          (afterIter sphere demoDraws demoParams j).swarm[1]? = some x ∧
          p.pbest = x.pos ∧ p.pbest_fit = sphere x.pos.1 x.pos.2 ∧
          (∀ (m : ℕ) (y : Particle ℚ), m ≤ 2 →
            (afterIter sphere demoDraws demoParams m).swarm[1]? = some y →
            sphere x.pos.1 x.pos.2 ≤ sphere y.pos.1 y.pos.2) ∧
          (∀ (m : ℕ) (y : Particle ℚ), m < j →
            (afterIter sphere demoDraws demoParams m).swarm[1]? = some y →
            sphere x.pos.1 x.pos.2 < sphere y.pos.1 y.pos.2) :=
  pbest_is_first_min_of_history sphere demoDraws demoParams 1 (by decide) 2

/-- C7 (zero-iteration degeneracy). With `MAX_ITER = 0` the final state is
the state produced by initialisation: no particle was updated, no draw beyond
the `4 * POP_SIZE` of initialisation was consumed, and the reported fitness
and position are those computed by initialisation. -/
theorem zero_iterations_report_init (f : α → α → α) (ρ : ℕ → α) (P : Params α)
    (h0 : P.MAX_ITER = 0) :
    run f ρ P = initSwarm f ρ P ∧ (run f ρ P).drawn = 4 * P.POP_SIZE ∧
      report (run f ρ P) = report (initSwarm f ρ P) := by
  have h : run f ρ P = initSwarm f ρ P := by
    unfold run
    rw [h0]
    rfl
  refine ⟨h, ?_, by rw [h]⟩
  rw [h]
  exact initUpTo_drawn f ρ P _

theorem zero_iterations_report_init_witness :
    run sphere demoDraws { demoParams with MAX_ITER := 0 } =
        initSwarm sphere demoDraws { demoParams with MAX_ITER := 0 } ∧
      (run sphere demoDraws { demoParams with MAX_ITER := 0 }).drawn = 4 * 2 ∧
      report (run sphere demoDraws { demoParams with MAX_ITER := 0 }) =
        report (initSwarm sphere demoDraws { demoParams with MAX_ITER := 0 }) :=
  zero_iterations_report_init sphere demoDraws { demoParams with MAX_ITER := 0 } rfl

/-- C8 (constant objective). For the objective that is constantly `c`, with
`POP_SIZE ≥ 1`, `X_MIN ≤ X_MAX` and draws in `[0, 1)`, for every `MAX_ITER`
(in particular every `MAX_ITER ≥ 1`) the reported fitness is exactly `c`, the
reported position is the initial position of the first particle, and both of
its coordinates lie in `[X_MIN, X_MAX]`. -/
theorem constant_objective_report (c : α) (ρ : ℕ → α) (P : Params α)
    (hP : 1 ≤ P.POP_SIZE) (hX : P.X_MIN ≤ P.X_MAX) (hρ : ∀ n, 0 ≤ ρ n ∧ ρ n < 1) :
    (report (run (fun _ _ => c) ρ P)).1 = (c : WithTop α) ∧
      (∃ p, (initSwarm (fun _ _ => c) ρ P).swarm[0]? = some p ∧
        (report (run (fun _ _ => c) ρ P)).2 = p.pos) ∧
      (P.X_MIN ≤ (report (run (fun _ _ => c) ρ P)).2.1 ∧
        (report (run (fun _ _ => c) ρ P)).2.1 ≤ P.X_MAX) ∧
      (P.X_MIN ≤ (report (run (fun _ _ => c) ρ P)).2.2 ∧
        (report (run (fun _ _ => c) ρ P)).2.2 ≤ P.X_MAX) := by
  have hrun : (run (fun _ _ => c) ρ P).gbest_fit = (c : WithTop α) ∧
      (run (fun _ _ => c) ρ P).gbest_pos = (freshParticle (fun _ _ => c) ρ P 0).pos :=
    iterations_induct (fun _ _ => c) ρ P
      (fun s => s.gbest_fit = (c : WithTop α) ∧
        s.gbest_pos = (freshParticle (fun _ _ => c) ρ P 0).pos)
      (fun s k h => updateParticle_const c ρ P _ s k h) _ (initSwarm_const c ρ P hP) P.MAX_ITER
  have hpos : (report (run (fun _ _ => c) ρ P)).2 =
      (freshParticle (fun _ _ => c) ρ P 0).pos := hrun.2
  refine ⟨hrun.1, ⟨_, initSwarm_getElem? (fun _ _ => c) ρ P 0 (by omega), hpos⟩, ?_, ?_⟩
  · rw [hpos]
    exact random_range_mem _ _ _ (hρ 0).1 (hρ 0).2 hX
  · rw [hpos]
    exact random_range_mem _ _ _ (hρ 1).1 (hρ 1).2 hX

theorem constant_objective_report_witness :
    (report (run (fun _ _ => (7 : ℚ)) demoDraws singleParams)).1 = ((7 : ℚ) : WithTop ℚ) ∧
      (∃ p, (initSwarm (fun _ _ => (7 : ℚ)) demoDraws singleParams).swarm[0]? = some p ∧
        (report (run (fun _ _ => (7 : ℚ)) demoDraws singleParams)).2 = p.pos) ∧
      (singleParams.X_MIN ≤ (report (run (fun _ _ => (7 : ℚ)) demoDraws singleParams)).2.1 ∧
        (report (run (fun _ _ => (7 : ℚ)) demoDraws singleParams)).2.1 ≤ singleParams.X_MAX) ∧
      (singleParams.X_MIN ≤ (report (run (fun _ _ => (7 : ℚ)) demoDraws singleParams)).2.2 ∧
        (report (run (fun _ _ => (7 : ℚ)) demoDraws singleParams)).2.2 ≤ singleParams.X_MAX) :=
  constant_objective_report 7 demoDraws singleParams (by decide) (by decide!) demoDraws_mem

/-- C9 (first-seen wins at initialisation). With `POP_SIZE ≥ 1`, after
initialisation the swarm has `POP_SIZE` particles, and there is an index `i`
such that the global best position is the position of particle `i`, the global
best fitness is the objective there, that value is at most the objective at
every particle's position, and strictly below the objective at the position of
every particle of lower index. -/
theorem init_gbest_first_seen (f : α → α → α) (ρ : ℕ → α) (P : Params α)
    (hP : 1 ≤ P.POP_SIZE) :
    (initSwarm f ρ P).swarm.length = P.POP_SIZE ∧
    ∃ (i : ℕ) (p : Particle α), (initSwarm f ρ P).swarm[i]? = some p ∧
      (initSwarm f ρ P).gbest_pos = p.pos ∧
      (initSwarm f ρ P).gbest_fit = ((f p.pos.1 p.pos.2 : α) : WithTop α) ∧
      (∀ (j : ℕ) (q : Particle α), (initSwarm f ρ P).swarm[j]? = some q →
        f p.pos.1 p.pos.2 ≤ f q.pos.1 q.pos.2) ∧
      (∀ (j : ℕ) (q : Particle α), j < i → (initSwarm f ρ P).swarm[j]? = some q →
        f p.pos.1 p.pos.2 < f q.pos.1 q.pos.2) := by
  refine ⟨initUpTo_length f ρ P _, ?_⟩
  obtain ⟨m, ⟨hm, hmin, hfirst⟩, hfit, hpos⟩ := initSwarm_gbest f ρ P hP
  refine ⟨m, _, initSwarm_getElem? f ρ P m hm, hpos, hfit, ?_, ?_⟩
  · intro j q hq
    obtain ⟨hj, rfl⟩ := initSwarm_getElem?_some f ρ P j q hq
    exact hmin j hj
  · intro j q hjm hq
    obtain ⟨_, rfl⟩ := initSwarm_getElem?_some f ρ P j q hq
    exact hfirst j hjm

theorem init_gbest_first_seen_witness :
    (initSwarm sphere demoDraws demoParams).swarm.length = demoParams.POP_SIZE ∧
    ∃ (i : ℕ) (p : Particle ℚ), (initSwarm sphere demoDraws demoParams).swarm[i]? = some p ∧
      (initSwarm sphere demoDraws demoParams).gbest_pos = p.pos ∧
      (initSwarm sphere demoDraws demoParams).gbest_fit =
        ((sphere p.pos.1 p.pos.2 : ℚ) : WithTop ℚ) ∧
      (∀ (j : ℕ) (q : Particle ℚ), (initSwarm sphere demoDraws demoParams).swarm[j]? = some q →
        sphere p.pos.1 p.pos.2 ≤ sphere q.pos.1 q.pos.2) ∧
      (∀ (j : ℕ) (q : Particle ℚ), j < i →
        (initSwarm sphere demoDraws demoParams).swarm[j]? = some q →
        sphere p.pos.1 p.pos.2 < sphere q.pos.1 q.pos.2) :=
  init_gbest_first_seen sphere demoDraws demoParams (by decide)

/-- C10 (determinism under fixed randomness). The run is a function of the
objective and the draw sequence. Initialisation consumes `4 * POP_SIZE` draws:
particle `i` takes the draws `4 i .. 4 i + 3` for x, y, vx, vy in that order.
In iteration `t + 1` the update of particle `k` takes the draws
`4 * POP_SIZE + 2 * POP_SIZE * t + 2 * k` as `r1` and the next one as `r2`.
Hence two draw sequences that agree on the first
`4 * POP_SIZE + 2 * POP_SIZE * MAX_ITER` elements give the same state after
initialisation, after every particle update and after every iteration. -/
theorem run_determined_by_draws (f : α → α → α) (ρ ρ' : ℕ → α) (P : Params α)
    (h : ∀ n, n < 4 * P.POP_SIZE + 2 * P.POP_SIZE * P.MAX_ITER → ρ n = ρ' n) :
    (initSwarm f ρ P).drawn = 4 * P.POP_SIZE ∧
      (∀ i, i < P.POP_SIZE → (initSwarm f ρ P).swarm[i]? = some
        { pos := (random_range (ρ (4 * i)) P.X_MIN P.X_MAX,
            random_range (ρ (4 * i + 1)) P.X_MIN P.X_MAX)
          vel := (random_range (ρ (4 * i + 2)) (-P.VEL_MAX) P.VEL_MAX,
            random_range (ρ (4 * i + 3)) (-P.VEL_MAX) P.VEL_MAX)
          pbest := (random_range (ρ (4 * i)) P.X_MIN P.X_MAX,
            random_range (ρ (4 * i + 1)) P.X_MIN P.X_MAX)
          pbest_fit := f (random_range (ρ (4 * i)) P.X_MIN P.X_MAX)
            (random_range (ρ (4 * i + 1)) P.X_MIN P.X_MAX) }) ∧
      (∀ t k, k ≤ P.POP_SIZE →
        (observe f ρ P t k).drawn = 4 * P.POP_SIZE + 2 * P.POP_SIZE * t + 2 * k) ∧
      (∀ t k p, (observe f ρ P t k).swarm[k]? = some p →
        (observe f ρ P t (k + 1)).swarm[k]? = some (keepBest f
          (move P (ρ (4 * P.POP_SIZE + 2 * P.POP_SIZE * t + 2 * k))
            (ρ (4 * P.POP_SIZE + 2 * P.POP_SIZE * t + 2 * k + 1))
            (observe f ρ P t k).gbest_pos p))) ∧
      (∀ t, t ≤ P.MAX_ITER → afterIter f ρ P t = afterIter f ρ' P t) ∧
      (∀ t k, t < P.MAX_ITER → k ≤ P.POP_SIZE → observe f ρ P t k = observe f ρ' P t k) ∧
      run f ρ P = run f ρ' P := by
  have hagree : ∀ t, t ≤ P.MAX_ITER → afterIter f ρ P t = afterIter f ρ' P t := by
    intro t ht
    apply afterIter_congr
    intro n hn
    apply h n
    have := Nat.mul_le_mul_left (2 * P.POP_SIZE) ht
    omega
  refine ⟨initUpTo_drawn f ρ P _, fun i hi => initSwarm_getElem? f ρ P i hi,
    fun t k hk => observe_drawn f ρ P t k hk, ?_, hagree, ?_, hagree _ (le_refl _)⟩
  · intro t k p hp
    have hk : k < P.POP_SIZE := by
      have := (List.getElem?_eq_some.mp hp).1
      rwa [observe, sweepUpTo_length, afterIter_length] at this
    have hd := observe_drawn f ρ P t k (le_of_lt hk)
    have hs := updateParticle_getElem?_self f ρ P (observe f ρ P t k) k p hp
    unfold moved at hs
    rw [hd] at hs
    have hstep : observe f ρ P t (k + 1) = updateParticle f ρ P (observe f ρ P t k) k :=
      sweepUpTo_succ f ρ P _ k
    rw [hstep]
    exact hs
  · intro t k ht hk
    apply observe_congr f ρ ρ' P t k hk
    intro n hn
    apply h n
    have h1 : 2 * P.POP_SIZE * (t + 1) ≤ 2 * P.POP_SIZE * P.MAX_ITER :=
      Nat.mul_le_mul_left (2 * P.POP_SIZE) ht
    have h2 : 2 * P.POP_SIZE * (t + 1) = 2 * P.POP_SIZE * t + 2 * P.POP_SIZE := by ring
    omega

theorem run_determined_by_draws_witness :
    run sphere demoDraws demoParams = run sphere demoDrawsCut demoParams ∧
      demoDraws 16 ≠ demoDrawsCut 16 :=
  ⟨(run_determined_by_draws sphere demoDraws demoDrawsCut demoParams
      demoDrawsCut_agrees).2.2.2.2.2.2, by decide!⟩

/-- C12 (global minimum of the Ackley objective). Over the real numbers,
with `PI = acos(-1) = π` and `E = exp 1`, `ackley 0 0 = 0`, `ackley x y ≥ 0`
for all `x`, `y`, and `ackley x y = 0` only at `(0, 0)`. -/
theorem ackley_global_minimum :
    PI = Real.pi ∧ E = Real.exp 1 ∧ ackley 0 0 = 0 ∧ (∀ x y : ℝ, 0 ≤ ackley x y) ∧
      ∀ x y : ℝ, ackley x y = 0 ↔ x = 0 ∧ y = 0 := by
  refine ⟨PI_eq, rfl, ackley_zero, ackley_nonneg, fun x y => ⟨ackley_eq_zero x y, ?_⟩⟩
  rintro ⟨rfl, rfl⟩
  exact ackley_zero

/-- C13 (frame of a particle update). Updating particle `k` leaves every
particle of index `i ≠ k` unchanged and keeps the length of the swarm; the
swarm has `POP_SIZE` particles after initialisation, after every particle
update and after every iteration. -/
theorem particle_update_frame (f : α → α → α) (ρ : ℕ → α) (P : Params α)
    (s : State α) (k i : ℕ) (hik : i ≠ k) :
    (updateParticle f ρ P s k).swarm[i]? = s.swarm[i]? ∧
      (updateParticle f ρ P s k).swarm.length = s.swarm.length ∧
      (initSwarm f ρ P).swarm.length = P.POP_SIZE ∧
      (∀ t, (afterIter f ρ P t).swarm.length = P.POP_SIZE) ∧
      ∀ t j, (observe f ρ P t j).swarm.length = P.POP_SIZE :=
  ⟨updateParticle_getElem?_ne f ρ P s k i (Ne.symm hik), updateParticle_length f ρ P s k,
    initUpTo_length f ρ P _, afterIter_length f ρ P,
    fun t j => (sweepUpTo_length f ρ P _ j).trans (afterIter_length f ρ P t)⟩

theorem particle_update_frame_witness :
    (updateParticle sphere demoDraws demoParams
        (initSwarm sphere demoDraws demoParams) 0).swarm[1]? =
      some { pos := (5 / 4, -5), vel := (-5 / 2, 5), pbest := (5 / 4, -5), pbest_fit := 425 / 16 } ∧
    (initSwarm sphere demoDraws demoParams).swarm[1]? =
      some { pos := (5 / 4, -5), vel := (-5 / 2, 5), pbest := (5 / 4, -5), pbest_fit := 425 / 16 } ∧
    (updateParticle sphere demoDraws demoParams
        (initSwarm sphere demoDraws demoParams) 0).swarm.length = 2 :=
  ⟨((particle_update_frame sphere demoDraws demoParams
      (initSwarm sphere demoDraws demoParams) 0 1 (by decide)).1).trans (by decide!),
    by decide!, by decide!⟩

/-- C14 (update rule). When particle `k` is updated with draws
`r1 = ρ drawn` and `r2 = ρ (drawn + 1)`, in each dimension the stored velocity
is `W * vel + C1 * r1 * (pbest - pos) + C2 * r2 * (g - pos)` computed from the
values before the step (the same `r1`, `r2` in both dimensions), and the
stored position is `min (max (pos + vel') X_MIN) X_MAX`; the velocity is
stored as computed, whether or not the position was clamped. -/
theorem update_rule (f : α → α → α) (ρ : ℕ → α) (P : Params α)
    (s : State α) (k : ℕ) (p : Particle α) (hk : s.swarm[k]? = some p) :
    ∃ q, (updateParticle f ρ P s k).swarm[k]? = some q ∧
      q.vel.1 = P.W * p.vel.1 + P.C1 * ρ s.drawn * (p.pbest.1 - p.pos.1)
        + P.C2 * ρ (s.drawn + 1) * (s.gbest_pos.1 - p.pos.1) ∧
      q.vel.2 = P.W * p.vel.2 + P.C1 * ρ s.drawn * (p.pbest.2 - p.pos.2)
        + P.C2 * ρ (s.drawn + 1) * (s.gbest_pos.2 - p.pos.2) ∧
      q.pos.1 = min (max (p.pos.1 + q.vel.1) P.X_MIN) P.X_MAX ∧
      q.pos.2 = min (max (p.pos.2 + q.vel.2) P.X_MIN) P.X_MAX := by
  refine ⟨_, updateParticle_getElem?_self f ρ P s k p hk, ?_, ?_, ?_, ?_⟩
  · rw [keepBest_vel]; rfl
  · rw [keepBest_vel]; rfl
  · rw [keepBest_pos, keepBest_vel]; exact clampPos_eq_min_max P _
  · rw [keepBest_pos, keepBest_vel]; exact clampPos_eq_min_max P _

theorem update_rule_witness :
    observe sphere pushDraws demoParams 0 1 = pushState ∧
    ∃ q : Particle ℚ, (updateParticle sphere pushDraws demoParams pushState 1).swarm[1]? = some q ∧
      q.vel.1 = demoParams.W * (15 / 2) + demoParams.C1 * pushDraws 10 * (-5 - -5)
        + demoParams.C2 * pushDraws (10 + 1) * (0 - -5) ∧
      q.vel.2 = demoParams.W * (15 / 2) + demoParams.C1 * pushDraws 10 * (-5 - -5)
        + demoParams.C2 * pushDraws (10 + 1) * (0 - -5) ∧
      q.pos.1 = min (max (-5 + q.vel.1) demoParams.X_MIN) demoParams.X_MAX ∧
      q.pos.2 = min (max (-5 + q.vel.2) demoParams.X_MIN) demoParams.X_MAX :=
  ⟨by decide!, update_rule sphere pushDraws demoParams pushState 1
    { pos := (-5, -5), vel := (15 / 2, 15 / 2), pbest := (-5, -5), pbest_fit := 50 } rfl⟩

/-- C15 (sequential update). An iteration is the left-to-right fold of
`updateParticle` over the particle indices, so the update of particle `k`
uses the global best position (and the draws) of the state reached after the
updates of particles `0 .. k - 1` of the same iteration. With two particles,
the objective `sphere` and the draws `chaseDraws` (all in `[0, 1)`), particle
0 improves the global best, and the iteration ends in a state different from
that of the synchronous variant, in which particle 1 still sees the global
best of the start of the iteration. -/
theorem sequential_update (f : α → α → α) (ρ : ℕ → α) (P : Params α)
    (s : State α) (k : ℕ) (p : Particle α) (hk : s.swarm[k]? = some p) :
    iteration f ρ P s = (List.range s.swarm.length).foldl (updateParticle f ρ P) s ∧
      (iteration f ρ P s).swarm[k]? = some (keepBest f
        (move P (ρ (sweepUpTo f ρ P s k).drawn) (ρ ((sweepUpTo f ρ P s k).drawn + 1))
          (sweepUpTo f ρ P s k).gbest_pos p)) ∧
      (∀ n, 0 ≤ chaseDraws n ∧ chaseDraws n < 1) ∧
      (sweepUpTo sphere chaseDraws demoParams (initSwarm sphere chaseDraws demoParams) 1).gbest_pos
        ≠ (initSwarm sphere chaseDraws demoParams).gbest_pos ∧
      iteration sphere chaseDraws demoParams (initSwarm sphere chaseDraws demoParams) ≠
        syncIteration sphere chaseDraws demoParams (initSwarm sphere chaseDraws demoParams) :=
  ⟨rfl, iteration_getElem? f ρ P s k p hk, chaseDraws_mem, by decide!, by decide!⟩

theorem sequential_update_witness :
    (iteration sphere chaseDraws demoParams (initSwarm sphere chaseDraws demoParams)).swarm[1]? =
      some { pos := (-7 / 8, 0), vel := (9 / 8, 0), pbest := (-7 / 8, 0), pbest_fit := 49 / 64 } ∧
    (syncIteration sphere chaseDraws demoParams
        (initSwarm sphere chaseDraws demoParams)).swarm[1]? =
      some { pos := (-2, 0), vel := (0, 0), pbest := (-2, 0), pbest_fit := 4 } :=
  ⟨((sequential_update sphere chaseDraws demoParams (initSwarm sphere chaseDraws demoParams) 1
      { pos := (-2, 0), vel := (0, 0), pbest := (-2, 0), pbest_fit := 4 }
      (by decide!)).2.1).trans (by decide!), by decide!⟩

/-- C16 (velocity is not bounded after initialisation). With the constants
of the source (`W = 0.7`, `C1 = C2 = 1.5`, `X_MIN = -5`, `X_MAX = 5`), two
particles, the objective `sphere` and the draws `pushDraws` (all in
`[0, 1)`): every initial velocity component has absolute value at most
`VEL_MAX = 10`, and after the updates of iteration 1 some particle has a
velocity component of absolute value strictly above `VEL_MAX`. -/
theorem velocity_exceeds_VEL_MAX :
    (demoParams.W = 7 / 10 ∧ demoParams.C1 = 3 / 2 ∧ demoParams.C2 = 3 / 2 ∧
        demoParams.X_MIN = -5 ∧ demoParams.X_MAX = 5 ∧ demoParams.VEL_MAX = 10 ∧
        2 ≤ demoParams.POP_SIZE) ∧
      (∀ n, 0 ≤ pushDraws n ∧ pushDraws n < 1) ∧
      (∀ p ∈ (initSwarm sphere pushDraws demoParams).swarm,
        |p.vel.1| ≤ demoParams.VEL_MAX ∧ |p.vel.2| ≤ demoParams.VEL_MAX) ∧
      ∃ p ∈ (afterIter sphere pushDraws demoParams 1).swarm,
        demoParams.VEL_MAX < |p.vel.1| :=
  ⟨by decide!, pushDraws_mem, by decide!, by decide!⟩

/-- C17 (nesting the global-best test loses nothing). On every state reached
from initialisation (after `t` iterations and `k` further particle updates),
the particle update of the source, which tests the global best only inside
the personal-best branch, gives the same state as the variant that tests the
global best unconditionally after the personal-best update. On a state that
no run reaches the two can differ. -/
theorem nested_gbest_test_eq_flat (f : α → α → α) (ρ : ℕ → α) (P : Params α) (t k j : ℕ) :
    updateParticle f ρ P (observe f ρ P t k) j =
        updateParticleFlat f ρ P (observe f ρ P t k) j ∧
      updateParticle sphere demoDraws demoParams strayState 0 ≠
        updateParticleFlat sphere demoDraws demoParams strayState 0 :=
  ⟨updateParticle_eq_flat f ρ P _ j
      (observe_induct f ρ P Dominated (dominated_step f ρ P) (dominated_init f ρ P) t k),
    by decide!⟩

/-- C18 (global-best consistency). With `POP_SIZE ≥ 1`, after initialisation
and after every particle update, the global best fitness is the objective at
the global best position, and some particle of the swarm has that position as
personal best position and that fitness as personal best fitness. -/
theorem gbest_consistent (f : α → α → α) (ρ : ℕ → α) (P : Params α)
    (hP : 1 ≤ P.POP_SIZE) (t k : ℕ) :
    (observe f ρ P t k).gbest_fit =
        ((f (observe f ρ P t k).gbest_pos.1 (observe f ρ P t k).gbest_pos.2 : α) : WithTop α) ∧
      ∃ p ∈ (observe f ρ P t k).swarm, p.pbest = (observe f ρ P t k).gbest_pos ∧
        (p.pbest_fit : WithTop α) = (observe f ρ P t k).gbest_fit := by
  obtain ⟨i, p, hi, hpos, hfit⟩ :=
    observe_induct f ρ P Attained (attained_step f ρ P) (attained_init f ρ P hP) t k
  have hc := observe_induct f ρ P (PbestConsistent f) (pbestConsistent_step f ρ P)
    (pbestConsistent_init f ρ P) t k i p hi
  refine ⟨?_, p, List.mem_iff_getElem?.mpr ⟨i, hi⟩, hpos, hfit.symm⟩
  rw [hfit, hc, hpos]

theorem gbest_consistent_witness :
    (observe sphere demoDraws demoParams 1 1).gbest_fit =
        ((sphere (observe sphere demoDraws demoParams 1 1).gbest_pos.1
          (observe sphere demoDraws demoParams 1 1).gbest_pos.2 : ℚ) : WithTop ℚ) ∧
      ∃ p ∈ (observe sphere demoDraws demoParams 1 1).swarm,
        p.pbest = (observe sphere demoDraws demoParams 1 1).gbest_pos ∧
        (p.pbest_fit : WithTop ℚ) = (observe sphere demoDraws demoParams 1 1).gbest_fit :=
  gbest_consistent sphere demoDraws demoParams (by decide) 1 1

/-- C19 (the reported result lies in the search domain). With
`POP_SIZE ≥ 1`, `X_MIN ≤ X_MAX` and draws in `[0, 1)`, after initialisation,
after every particle update and after every iteration, the global best
position and every particle's personal best position have both coordinates in
`[X_MIN, X_MAX]`. The value `(0, 0)` given to the global best position before
initialisation, with fitness `+infinity`, does not survive: after `t`
iterations the global best position is a position that some particle held
after initialisation or after one of the iterations `1 .. t`. -/
theorem report_in_domain (f : α → α → α) (ρ : ℕ → α) (P : Params α)
    (hP : 1 ≤ P.POP_SIZE) (hX : P.X_MIN ≤ P.X_MAX) (hρ : ∀ n, 0 ≤ ρ n ∧ ρ n < 1)
    (t k : ℕ) :
    InDomain P (observe f ρ P t k).gbest_pos ∧
      (∀ p ∈ (observe f ρ P t k).swarm, InDomain P p.pbest) ∧
      InDomain P (report (run f ρ P)).2 ∧
      ((start P).gbest_pos = (0, 0) ∧ (start P).gbest_fit = ⊤) ∧
      ∃ (j i : ℕ) (p : Particle α), j ≤ t ∧ (afterIter f ρ P j).swarm[i]? = some p ∧
        (afterIter f ρ P t).gbest_pos = p.pos := by
  have hdom : ∀ t k, SwarmInDomain P (observe f ρ P t k) := fun t k =>
    observe_induct f ρ P (SwarmInDomain P) (swarmInDomain_step f ρ P hX)
      (swarmInDomain_init f ρ P hX hρ) t k
  have hg : ∀ t k, InDomain P (observe f ρ P t k).gbest_pos := by
    intro t k
    obtain ⟨i, p, hi, hpos, _⟩ :=
      observe_induct f ρ P Attained (attained_step f ρ P) (attained_init f ρ P hP) t k
    rw [← hpos]
    exact (hdom t k i p hi).2
  refine ⟨hg t k, ?_, hg P.MAX_ITER 0, ⟨rfl, rfl⟩, ?_⟩
  · intro p hp
    obtain ⟨i, hi⟩ := List.mem_iff_getElem?.mp hp
    exact (hdom t k i p hi).2
  · obtain ⟨j, i, p, hj, hp, hpos, _⟩ := afterIter_gbest_history f ρ P hP t
    exact ⟨j, i, p, hj, hp, hpos⟩

theorem report_in_domain_witness :
    InDomain demoParams (observe sphere demoDraws demoParams 1 1).gbest_pos ∧
      (∀ p ∈ (observe sphere demoDraws demoParams 1 1).swarm, InDomain demoParams p.pbest) ∧
      InDomain demoParams (report (run sphere demoDraws demoParams)).2 ∧
      ((start demoParams).gbest_pos = (0, 0) ∧ (start demoParams).gbest_fit = ⊤) ∧
      ∃ (j i : ℕ) (p : Particle ℚ), j ≤ 1 ∧
        (afterIter sphere demoDraws demoParams j).swarm[i]? = some p ∧
        (afterIter sphere demoDraws demoParams 1).gbest_pos = p.pos :=
  report_in_domain sphere demoDraws demoParams (by decide) (by decide!) demoDraws_mem 1 1

end Claims

end PSO
